import Mathlib

/-!
Verification of the NRL fantasy trade calculator's priority-ranking and
combination-search engine, shallowly embedded from
`src/nrl_trade_calculator.py`.

Modelling conventions:
* a pandas `DataFrame` of per-round player rows becomes a `List PlayerRow`;
* a pandas stable sort (`sort_values`) becomes `List.insertionSort`, which
  places equal-key elements in their original relative order, exactly like
  Python's stable sorts;
* Python's `int(x)` on a rational mean is truncation toward zero, i.e.
  `Int.tdiv` of the sum by the count;
* Python dictionaries keyed by priority level become association lists
  `List (Nat × List Candidate)` (dict keys are distinct by construction);
* Python's truthiness of optional lists (`if traded_out_positions:`) is
  modelled by `List.isEmpty`: `None` and `[]` behave identically in every
  use site, so both are represented by `[]`;
* the uncaught `IndexError` reachable in the hybrid like-for-like branch is
  modelled by returning `Except.error "IndexError"`.
-/

/-- One player's stats for one round: a row of the consolidated data frame
(`Player`, `Team`, `Round`, `POS`, `Age`, `Price`, `Total base`,
`Base exceeds price premium`). -/
structure PlayerRow where
  player : String
  team : String
  round : Nat
  pos : String
  age : Int
  price : Int
  totalBase : Int
  premium : Int
deriving DecidableEq, Repr

/-- Ordering used for `sort_values('Round')` (ascending). -/
def roundAscRel (a b : PlayerRow) : Prop := a.round ≤ b.round

instance : DecidableRel roundAscRel := fun a b => Nat.decLe a.round b.round

/-- Ordering used for `sort_values('Round', ascending=False)`. -/
def roundDescRel (a b : PlayerRow) : Prop := b.round ≤ a.round

instance : DecidableRel roundDescRel := fun a b => Nat.decLe b.round a.round

/-- The rows of one player, sorted by round ascending:
`consolidated_data[consolidated_data['Player'] == name].sort_values('Round')`. -/
def playerHistory (name : String) (data : List PlayerRow) : List PlayerRow :=
  List.insertionSort roundAscRel (data.filter (fun r => r.player == name))

/-- The rows of one player, sorted by round descending:
`consolidated_data[...].sort_values('Round', ascending=False)`. -/
def playerHistoryDesc (name : String) (data : List PlayerRow) : List PlayerRow :=
  List.insertionSort roundDescRel (data.filter (fun r => r.player == name))

/-- The streak loop of `check_consistent_performance`: walk the premiums in
round order, growing a current streak that resets on a miss, tracking the
best streak seen (`consecutive_weeks = max(consecutive_weeks, current_streak)`). -/
def cgwLoop (minBP : Int) : List Int → Nat → Nat → Nat
  | [], _, best => best
  | x :: xs, cur, best =>
    let c := if minBP ≤ x then cur + 1 else 0
    cgwLoop minBP xs c (max best c)

/-- `check_consistent_performance(player_name, consolidated_data,
min_base_premium, required_consecutive_weeks)`: the maximum streak of rounds
with premium at least `min_base_premium`.  The `required_consecutive_weeks`
parameter is accepted but unused, exactly as in the source. -/
def check_consistent_performance (name : String) (data : List PlayerRow)
    (minBP : Int := 5) (requiredWeeks : Nat := 2) : Nat :=
  let _ := requiredWeeks
  cgwLoop minBP ((playerHistory name data).map (fun r => r.premium)) 0 0

/-- The streak loop of `check_rule_condition`: same accumulation, but with an
early `break` as soon as the current streak reaches `weeks_threshold`. -/
def streakLoop (T : Int) (W : Nat) : List Int → Nat → Nat
  | [], s => s
  | x :: xs, s =>
    let s' := if T ≤ x then s + 1 else 0
    if W ≤ s' then s' else streakLoop T W xs s'

/-- `check_rule_condition(player_data, consolidated_data,
base_premium_threshold, weeks_threshold, position_requirement, max_age)`.
The `position_requirement` string (alternatives separated by `'|'`) is
modelled pre-split as an optional list of position codes. -/
def check_rule_condition (pd : PlayerRow) (data : List PlayerRow)
    (T : Int) (W : Nat) (posReq : Option (List String) := none)
    (maxAge : Option Int := none) : Bool :=
  if (pd.pos = "MID" ∨ pd.pos = "EDG") ∧ 29 ≤ pd.age then false
  else
    let meetsBpre := decide (T ≤ pd.premium)
    let hist := (playerHistory pd.player data).map (fun r => r.premium)
    let meetsWeeks := decide (W ≤ streakLoop T W hist 0)
    let meetsPosition := match posReq with
      | none => true
      | some ps => decide (pd.pos ∈ ps)
    let meetsAge := match maxAge with
      | none => true
      | some a => decide (pd.age ≤ a)
    meetsBpre && meetsWeeks && meetsPosition && meetsAge

/-- `calculate_average_bpre(player_name, consolidated_data, lookback_weeks)`.
Python's `int(recent_data['Base exceeds price premium'].mean())` truncates
the rational mean toward zero, which is `Int.tdiv` of the sum by the count. -/
def calculate_average_bpre (name : String) (data : List PlayerRow)
    (lookback : Nat := 3) : Int :=
  let pdata := playerHistoryDesc name data
  let excluded : Bool := match pdata.head? with
    | some r => decide ((r.pos = "MID" ∨ r.pos = "EDG") ∧ 29 ≤ r.age)
    | none => false
  if excluded then 0
  else
    let recent := pdata.take lookback
    if recent.length < lookback then 0
    else Int.tdiv ((recent.map (fun r => r.premium)).sum) (recent.length : Int)

/-- `calculate_average_base(player_name, consolidated_data, lookback_weeks,
min_games)`. -/
def calculate_average_base (name : String) (data : List PlayerRow)
    (lookback : Nat := 3) (minGames : Nat := 2) : Int :=
  let pdata := playerHistoryDesc name data
  let recent := pdata.take lookback
  if minGames ≤ recent.length then
    Int.tdiv ((recent.map (fun r => r.totalBase)).sum) (recent.length : Int)
  else 0

/-- `assign_priority_level(player_data, consolidated_data)`: the fixed
24-rule cascade, returning 25 when no rule matches. -/
def assign_priority_level (pd : PlayerRow) (data : List PlayerRow) : Nat :=
  if check_rule_condition pd data 14 3 then 1
  else if check_rule_condition pd data 21 2 then 2
  else if 26 ≤ calculate_average_bpre pd.player data 2 then 3
  else if check_rule_condition pd data 12 3 then 4
  else if check_rule_condition pd data 19 2 then 5
  else if 24 ≤ calculate_average_bpre pd.player data 2 then 6
  else if check_rule_condition pd data 10 3 then 7
  else if check_rule_condition pd data 17 2 then 8
  else if 22 ≤ calculate_average_bpre pd.player data 2 then 9
  else if check_rule_condition pd data 8 3 then 10
  else if check_rule_condition pd data 15 2 then 11
  else if 20 ≤ calculate_average_bpre pd.player data 2 then 12
  else if check_rule_condition pd data 6 3 then 13
  else if check_rule_condition pd data 13 2 then 14
  else if 18 ≤ calculate_average_bpre pd.player data 2 then 15
  else if check_rule_condition pd data 10 2 then 16
  else if 15 ≤ calculate_average_bpre pd.player data 2 then 17
  else if check_rule_condition pd data 8 2 then 18
  else if 13 ≤ calculate_average_bpre pd.player data 2 then 19
  else if check_rule_condition pd data 6 2 then 20
  else if 11 ≤ calculate_average_bpre pd.player data 2 then 21
  else if check_rule_condition pd data 2 3 then 22
  else if check_rule_condition pd data 4 2 then 23
  else if 9 ≤ calculate_average_bpre pd.player data 2 then 24
  else 25

/-- The condition of rule `k` of the cascade (`false` for indices outside
1..24), read off rule by rule from `assign_priority_level`. -/
def ruleSat (k : Nat) (pd : PlayerRow) (data : List PlayerRow) : Bool :=
  match k with
  | 1 => check_rule_condition pd data 14 3
  | 2 => check_rule_condition pd data 21 2
  | 3 => decide (26 ≤ calculate_average_bpre pd.player data 2)
  | 4 => check_rule_condition pd data 12 3
  | 5 => check_rule_condition pd data 19 2
  | 6 => decide (24 ≤ calculate_average_bpre pd.player data 2)
  | 7 => check_rule_condition pd data 10 3
  | 8 => check_rule_condition pd data 17 2
  | 9 => decide (22 ≤ calculate_average_bpre pd.player data 2)
  | 10 => check_rule_condition pd data 8 3
  | 11 => check_rule_condition pd data 15 2
  | 12 => decide (20 ≤ calculate_average_bpre pd.player data 2)
  | 13 => check_rule_condition pd data 6 3
  | 14 => check_rule_condition pd data 13 2
  | 15 => decide (18 ≤ calculate_average_bpre pd.player data 2)
  | 16 => check_rule_condition pd data 10 2
  | 17 => decide (15 ≤ calculate_average_bpre pd.player data 2)
  | 18 => check_rule_condition pd data 8 2
  | 19 => decide (13 ≤ calculate_average_bpre pd.player data 2)
  | 20 => check_rule_condition pd data 6 2
  | 21 => decide (11 ≤ calculate_average_bpre pd.player data 2)
  | 22 => check_rule_condition pd data 2 3
  | 23 => check_rule_condition pd data 4 2
  | 24 => decide (9 ≤ calculate_average_bpre pd.player data 2)
  | _ => false

/-- A candidate row of `available_players`: a player's latest record plus the
computed columns `consecutive_good_weeks`, `priority_level`, `avg_bpre`,
`avg_base`. -/
structure Candidate where
  name : String
  team : String
  pos : String
  price : Int
  totalBase : Int
  premium : Int
  cgw : Nat
  level : Nat
  avgBpre : Int
  avgBase : Int
deriving DecidableEq, Repr

/-- The dictionary produced by `create_player_dict(player)`. -/
structure PlayerOut where
  name : String
  team : String
  position : String
  price : Int
  total_base : Int
  base_premium : Int
  consecutive_good_weeks : Nat
  priority_level : Nat
  avg_bpre : Int
  avg_base : Int
deriving DecidableEq, Repr

/-- The dictionary produced by `create_combination(players, total_price,
salary_freed)`.  `combo_avg_bpre` is a true rational (Python float division). -/
structure TradeCombo where
  players : List PlayerOut
  total_price : Int
  total_base : Int
  total_base_premium : Int
  salary_remaining : Int
  total_avg_base : Int
  combo_avg_bpre : Rat

/-- `create_player_dict(player)`. -/
def create_player_dict (p : Candidate) : PlayerOut :=
  { name := p.name
    team := p.team
    position := p.pos
    price := p.price
    total_base := p.totalBase
    base_premium := p.premium
    consecutive_good_weeks := p.cgw
    priority_level := p.level
    avg_bpre := p.avgBpre
    avg_base := p.avgBase }

/-- `create_combination(players, total_price, salary_freed)`. -/
def create_combination (players : List Candidate) (totalPrice salaryFreed : Int) :
    TradeCombo :=
  { players := players.map create_player_dict
    total_price := totalPrice
    total_base := (players.map (fun p => p.totalBase)).sum
    total_base_premium := (players.map (fun p => p.premium)).sum
    salary_remaining := salaryFreed - totalPrice
    total_avg_base := (players.map (fun p => p.avgBase)).sum
    combo_avg_bpre := ((players.map (fun p => p.avgBpre)).sum : Rat) / (players.length : Rat) }

/-- Ordering for `sorted(position_filtered_groups.keys())`, lifted to the
association list representing the dictionary. -/
def levelRel (a b : Nat × List Candidate) : Prop := a.1 ≤ b.1

instance : DecidableRel levelRel := fun a b => Nat.decLe a.1 b.1

/-- Ordering for `flat_players.sort(key=lambda x: (x['avg_base'],
x['avg_bpre']), reverse=True)`: descending lexicographic on the key pair. -/
def prodKeyRel (a b : Candidate) : Prop :=
  b.avgBase < a.avgBase ∨ (b.avgBase = a.avgBase ∧ b.avgBpre ≤ a.avgBpre)

instance : DecidableRel prodKeyRel := fun a b => by unfold prodKeyRel; infer_instance

/-- Ordering for `level_players.sort(key=lambda x: x['avg_bpre'], reverse=True)`. -/
def bpreRel (a b : Candidate) : Prop := b.avgBpre ≤ a.avgBpre

instance : DecidableRel bpreRel := fun a b => Int.decLe b.avgBpre a.avgBpre

/-- Ordering for `base_players.sort(key=lambda x: x['avg_base'], reverse=True)`. -/
def avgBaseRel (a b : Candidate) : Prop := b.avgBase ≤ a.avgBase

instance : DecidableRel avgBaseRel := fun a b => Int.decLe b.avgBase a.avgBase

/-- Python set equality `{a, b} == set(c)` for lists of strings: mutual
membership. -/
def sameSet (xs ys : List String) : Bool :=
  decide ((∀ x ∈ xs, x ∈ ys) ∧ (∀ y ∈ ys, y ∈ xs))

/-- Position filtering applied at the top of
`generate_comprehensive_trade_options` for like-for-like trades. -/
def position_filtered (groups : List (Nat × List Candidate)) (l4l : Bool)
    (tp : List String) : List (Nat × List Candidate) :=
  if l4l then
    groups.map (fun g => (g.1, g.2.filter (fun p => decide (p.pos ∈ tp))))
  else groups

/-- The dictionary traversed in ascending key order
(`sorted(position_filtered_groups.keys())`). -/
def sorted_groups (groups : List (Nat × List Candidate)) :
    List (Nat × List Candidate) :=
  List.insertionSort levelRel groups

/-- `flat_players` of the maximize-base branch: flatten in level order, then
stable sort by `(avg_base, avg_bpre)` descending. -/
def flat_players_sorted (pfg : List (Nat × List Candidate)) : List Candidate :=
  List.insertionSort prodKeyRel ((sorted_groups pfg).flatMap (fun g => g.2))

/-- `value_players` of the hybrid branch: each level list sorted by
`avg_bpre` descending, concatenated in level order. -/
def hybrid_value_players (pfg : List (Nat × List Candidate)) : List Candidate :=
  (sorted_groups pfg).flatMap (fun g => List.insertionSort bpreRel g.2)

/-- `base_players` of the hybrid branch.  The Python code sorts the level
lists in place while building `value_players`, then flattens those same lists
and stable-sorts by `avg_base` descending, so the tie order comes from the
per-level `avg_bpre` sort. -/
def hybrid_base_players (pfg : List (Nat × List Candidate)) : List Candidate :=
  List.insertionSort avgBaseRel (hybrid_value_players pfg)

/-- The single-replacement loop (`num_players_needed == 1`), shared verbatim
by all three strategy branches: walk the candidate order, skip used players,
accept any affordable candidate, stop once `max_options` options exist. -/
def single_slot_loop (budget : Int) (maxOpt : Nat) :
    List Candidate → List String → List TradeCombo → (List TradeCombo × List String)
  | [], used, acc => (acc, used)
  | p :: rest, used, acc =>
    if p.name ∈ used then single_slot_loop budget maxOpt rest used acc
    else if p.price ≤ budget then
      let acc' := acc ++ [create_combination [p] p.price budget]
      let used' := p.name :: used
      if maxOpt ≤ acc'.length then (acc', used')
      else single_slot_loop budget maxOpt rest used' acc'
    else single_slot_loop budget maxOpt rest used acc

/-- Partner condition of the maximize-base pair search: unused, positions
matching the traded-out set when like-for-like, combined price affordable. -/
def base_pair_cond (budget : Int) (posSet : Option (List String))
    (used : List String) (p q : Candidate) : Bool :=
  decide (q.name ∉ used) &&
  (match posSet with
   | none => true
   | some tp => sameSet [p.pos, q.pos] tp) &&
  decide (p.price + q.price ≤ budget)

/-- The maximize-base pair loop: for each unused first player, greedily take
the first later candidate satisfying `base_pair_cond`, mark both used. -/
def base_pair_loop (budget : Int) (posSet : Option (List String)) :
    List Candidate → List String → List TradeCombo → (List TradeCombo × List String)
  | [], used, acc => (acc, used)
  | p :: rest, used, acc =>
    if p.name ∈ used then base_pair_loop budget posSet rest used acc
    else match rest.find? (base_pair_cond budget posSet used p) with
      | some q =>
        base_pair_loop budget posSet rest (q.name :: p.name :: used)
          (acc ++ [create_combination [p, q] (p.price + q.price) budget])
      | none => base_pair_loop budget posSet rest used acc

/-- Partner condition of the maximize-value pair search: unused, position in
`needed_position` (the traded-out positions other than the first player's)
when like-for-like, combined price affordable. -/
def value_pair_cond (budget : Int) (tpOpt : Option (List String))
    (used : List String) (p q : Candidate) : Bool :=
  decide (q.name ∉ used) &&
  (match tpOpt with
   | none => true
   | some tp => decide (q.pos ∈ tp.filter (fun s => decide (s ≠ p.pos)))) &&
  decide (p.price + q.price ≤ budget)

/-- One level of the maximize-value pair search: for each unused first
player of the (avg-bpre-sorted) level, search the rest of the level for a
partner, then fall back to the subsequent levels in order. -/
def value_pair_level (budget : Int) (tpOpt : Option (List String))
    (nextLevels : List (Nat × List Candidate)) :
    List Candidate → List String → List TradeCombo → (List TradeCombo × List String)
  | [], used, acc => (acc, used)
  | p :: rest, used, acc =>
    if p.name ∈ used then value_pair_level budget tpOpt nextLevels rest used acc
    else match rest.find? (value_pair_cond budget tpOpt used p) with
      | some q =>
        value_pair_level budget tpOpt nextLevels rest (q.name :: p.name :: used)
          (acc ++ [create_combination [p, q] (p.price + q.price) budget])
      | none =>
        match (nextLevels.flatMap (fun g => g.2)).find? (value_pair_cond budget tpOpt used p) with
        | some q =>
          value_pair_level budget tpOpt nextLevels rest (q.name :: p.name :: used)
            (acc ++ [create_combination [p, q] (p.price + q.price) budget])
        | none => value_pair_level budget tpOpt nextLevels rest used acc

/-- The maximize-value pair search over all levels in ascending order. -/
def value_pair_levels (budget : Int) (tpOpt : Option (List String)) :
    List (Nat × List Candidate) → List String → List TradeCombo →
    (List TradeCombo × List String)
  | [], used, acc => (acc, used)
  | (_, ps) :: restLv, used, acc =>
    let res := value_pair_level budget tpOpt restLv (List.insertionSort bpreRel ps) used acc
    value_pair_levels budget tpOpt restLv res.2 res.1

/-- The maximize-value single-replacement search: the shared single-slot loop
run level by level in ascending order on the avg-bpre-sorted level lists. -/
def value_single_levels (budget : Int) (maxOpt : Nat) :
    List (Nat × List Candidate) → List String → List TradeCombo →
    (List TradeCombo × List String)
  | [], used, acc => (acc, used)
  | (_, ps) :: restLv, used, acc =>
    let res := single_slot_loop budget maxOpt (List.insertionSort bpreRel ps) used acc
    value_single_levels budget maxOpt restLv res.2 res.1

/-- Second-slot condition of the hybrid pair search: unused, distinct from
the value player, position equal to `needed_position` when like-for-like,
price within the remaining salary. -/
def hybrid_pair_cond (remaining : Int) (vpName : String)
    (needed : Option String) (used : List String) (bp : Candidate) : Bool :=
  decide (bp.name ∉ used) &&
  decide (bp.name ≠ vpName) &&
  (match needed with
   | none => true
   | some np => decide (bp.pos = np)) &&
  decide (bp.price ≤ remaining)

/-- The hybrid like-for-like pair loop.  Computing
`[pos for pos in traded_out_positions if pos != value_player['POS']][0]`
raises an uncaught `IndexError` when the filtered list is empty; this is
modelled by `Except.error "IndexError"`. -/
def hybrid_pair_l4l (budget : Int) (tp : List String) (basePlayers : List Candidate) :
    List Candidate → List String → List TradeCombo → Except String (List TradeCombo)
  | [], _, acc => .ok acc
  | vp :: rest, used, acc =>
    if vp.name ∈ used then hybrid_pair_l4l budget tp basePlayers rest used acc
    else
      match tp.filter (fun s => decide (s ≠ vp.pos)) with
      | [] => .error "IndexError"
      | needed :: _ =>
        match basePlayers.find? (hybrid_pair_cond (budget - vp.price) vp.name (some needed) used) with
        | some bp =>
          hybrid_pair_l4l budget tp basePlayers rest (bp.name :: vp.name :: used)
            (acc ++ [create_combination [vp, bp] (vp.price + bp.price) budget])
        | none => hybrid_pair_l4l budget tp basePlayers rest used acc

/-- The hybrid pair loop for non-like-for-like trades. -/
def hybrid_pair_loop (budget : Int) (basePlayers : List Candidate) :
    List Candidate → List String → List TradeCombo → (List TradeCombo × List String)
  | [], used, acc => (acc, used)
  | vp :: rest, used, acc =>
    if vp.name ∈ used then hybrid_pair_loop budget basePlayers rest used acc
    else
      match basePlayers.find? (hybrid_pair_cond (budget - vp.price) vp.name none used) with
      | some bp =>
        hybrid_pair_loop budget basePlayers rest (bp.name :: vp.name :: used)
          (acc ++ [create_combination [vp, bp] (vp.price + bp.price) budget])
      | none => hybrid_pair_loop budget basePlayers rest used acc

/-- `generate_comprehensive_trade_options(priority_groups, salary_freed,
maximize_base, hybrid_approach, max_options, trade_type,
traded_out_positions, num_players_needed)`.  `traded_out_positions = None`
and `= []` are both modelled by `[]` (identical Python behaviour). -/
def generate_comprehensive_trade_options
    (priorityGroups : List (Nat × List Candidate)) (salaryFreed : Int)
    (maximizeBase : Bool := false) (hybridApproach : Bool := false)
    (maxOptions : Nat := 10) (tradeType : String := "likeForLike")
    (tradedOutPositions : List String := []) (numPlayersNeeded : Nat := 2) :
    Except String (List TradeCombo) :=
  let l4l := tradeType == "likeForLike" && !tradedOutPositions.isEmpty
  let pfg := position_filtered priorityGroups l4l tradedOutPositions
  let res : Except String (List TradeCombo) :=
    if maximizeBase then
      let flat := flat_players_sorted pfg
      if numPlayersNeeded = 1 then
        .ok (single_slot_loop salaryFreed maxOptions flat [] []).1
      else if l4l then
        .ok (base_pair_loop salaryFreed (some tradedOutPositions) flat [] []).1
      else
        .ok (base_pair_loop salaryFreed none flat [] []).1
    else if hybridApproach then
      let vps := hybrid_value_players pfg
      let bps := hybrid_base_players pfg
      if numPlayersNeeded = 1 then
        .ok (single_slot_loop salaryFreed maxOptions vps [] []).1
      else if l4l then
        hybrid_pair_l4l salaryFreed tradedOutPositions bps vps [] []
      else
        .ok (hybrid_pair_loop salaryFreed bps vps [] []).1
    else
      if numPlayersNeeded = 1 then
        .ok (value_single_levels salaryFreed maxOptions (sorted_groups pfg) [] []).1
      else if l4l then
        .ok (value_pair_levels salaryFreed (some tradedOutPositions) (sorted_groups pfg) [] []).1
      else
        .ok (value_pair_levels salaryFreed none (sorted_groups pfg) [] []).1
  Except.map (fun cs => cs.take maxOptions) res

/-- The player names of a trade combination. -/
def comboNames (o : TradeCombo) : List String :=
  o.players.map (fun p => p.name)

/-- `get_traded_out_positions(traded_out_players, consolidated_data)`: the
latest-round position of each traded-out player that has data. -/
def get_traded_out_positions (tradedOut : List String) (data : List PlayerRow) :
    List String :=
  tradedOut.filterMap (fun name => (playerHistoryDesc name data).head?.map (fun r => r.pos))

/-- A `datetime` value as used by the lockout logic; comparison is
lexicographic on (year, month, day, hour, minute). -/
structure PyDateTime where
  year : Nat
  month : Nat
  day : Nat
  hour : Nat
  minute : Nat
deriving DecidableEq, Repr

/-- `datetime` comparison `a <= b`. -/
def dtLe (a b : PyDateTime) : Prop :=
  a.year < b.year ∨ (a.year = b.year ∧
    (a.month < b.month ∨ (a.month = b.month ∧
      (a.day < b.day ∨ (a.day = b.day ∧
        (a.hour < b.hour ∨ (a.hour = b.hour ∧ a.minute ≤ b.minute)))))))

instance : DecidableRel dtLe := fun a b => by unfold dtLe; infer_instance

/-- The hard-coded fixture table of `get_locked_out_players`. -/
def fixtures : List (PyDateTime × List String) :=
  [ (⟨2025, 3, 2, 11, 0⟩, ["CAN", "WAR"]),
    (⟨2025, 3, 2, 15, 30⟩, ["PEN", "CRO"]),
    (⟨2025, 3, 6, 20, 0⟩, ["SYD", "BRI"]),
    (⟨2025, 3, 7, 18, 0⟩, ["WST", "NEW"]),
    (⟨2025, 3, 7, 20, 5⟩, ["DOL", "SOU"]),
    (⟨2025, 3, 8, 17, 30⟩, ["SGI", "CBY"]),
    (⟨2025, 3, 8, 19, 35⟩, ["MAN", "NQL"]),
    (⟨2025, 3, 9, 16, 5⟩, ["MEL", "SOU"]) ]

/-- Teams whose fixture kickoff is at or before the simulated time. -/
def locked_out_teams (t : PyDateTime) : List String :=
  (fixtures.filter (fun f => decide (dtLe f.1 t))).flatMap (fun f => f.2)

/-- The row kept for a player by
`consolidated_data.sort_values('Round').groupby('Player').last()`: the last
row of that player in the round-sorted data. -/
def latest_record (data : List PlayerRow) (name : String) : Option PlayerRow :=
  ((List.insertionSort roundAscRel data).filter (fun r => r.player == name)).getLast?

/-- `get_locked_out_players(simulate_datetime, consolidated_data)`.  The
simulated timestamp is modelled already parsed; `None` (and Python's falsy
empty string) is `none`, and the guard `if not simulate_datetime: return
set()` is the `none` branch.  The returned set is modelled as the list of
names whose latest-round team is locked out. -/
def get_locked_out_players (simulateDatetime : Option PyDateTime)
    (data : List PlayerRow) : List String :=
  match simulateDatetime with
  | none => []
  | some t =>
    let lockedTeams := locked_out_teams t
    ((data.map (fun r => r.player)).dedup).filter (fun n =>
      match latest_record data n with
      | some r => decide (r.team ∈ lockedTeams)
      | none => false)

/-- `sorted(consolidated_data['Round'].unique())`. -/
def unique_rounds_sorted (data : List PlayerRow) : List Nat :=
  List.insertionSort (fun a b => a ≤ b) ((data.map (fun r => r.round)).dedup)

/-- `sorted(consolidated_data['Round'].unique())[-3:]`. -/
def last_three_rounds (data : List PlayerRow) : List Nat :=
  let u := unique_rounds_sorted data
  u.drop (u.length - 3)

/-- The last row of `name` in `rows` in file order (pandas
`groupby('Player').last()` without a prior sort keeps file order within each
group). -/
def last_occurrence (rows : List PlayerRow) (name : String) : Option PlayerRow :=
  (rows.filter (fun r => r.player == name)).getLast?

/-- The candidate pool of `calculate_trade_options` before any optional
restriction: players appearing in the last three rounds, minus the
traded-out players, one (latest-in-file-order) row each, in the
name-sorted order `groupby('Player')` produces. -/
def pool_recent (data : List PlayerRow) (tradedOut : List String) : List PlayerRow :=
  let recent := data.filter (fun r => decide (r.round ∈ last_three_rounds data))
  let kept := recent.filter (fun r => decide (r.player ∉ tradedOut))
  let names := List.insertionSort (fun a b => a ≤ b) ((kept.map (fun r => r.player)).dedup)
  names.filterMap (fun n => last_occurrence kept n)

/-- The pool after the optional team-list restriction (`if team_list:`;
`None` and `[]` are both falsy, so both are modelled by `[]`). -/
def pool_team_filtered (data : List PlayerRow) (tradedOut teamList : List String) :
    List PlayerRow :=
  let pool := pool_recent data tradedOut
  if teamList.isEmpty then pool
  else pool.filter (fun r => decide (r.player ∈ teamList))

/-- The pool after the optional lockout restriction. -/
def pool_lockout_filtered (data : List PlayerRow) (tradedOut teamList : List String)
    (applyLockout : Bool) (sim : Option PyDateTime) : List PlayerRow :=
  let pool := pool_team_filtered data tradedOut teamList
  if applyLockout then
    pool.filter (fun r => decide (r.player ∉ get_locked_out_players sim data))
  else pool

/-- The pool after the optional positional restriction
(`positions_to_use = allowed_positions if trade_type == 'positionalSwap'
else None`): the final `available_players` of `calculate_trade_options`. -/
def pool_final (data : List PlayerRow) (tradedOut teamList : List String)
    (applyLockout : Bool) (sim : Option PyDateTime)
    (tradeType : String) (allowedPositions : List String) : List PlayerRow :=
  let pool := pool_lockout_filtered data tradedOut teamList applyLockout sim
  let positionsToUse := if tradeType == "positionalSwap" then allowedPositions else []
  if positionsToUse.isEmpty then pool
  else pool.filter (fun r => decide (r.pos ∈ positionsToUse))

/-- Length of the maximal all-good leading run of a premium sequence. -/
def leadLen (T : Int) : List Int → Nat
  | [] => 0
  | x :: xs => if T ≤ x then leadLen T xs + 1 else 0

/-- Maximum length of a run of consecutive entries that are all at least
`T`: the maximum over all suffixes of the leading-run length. -/
def maxRun (T : Int) : List Int → Nat
  | [] => 0
  | x :: xs => max (leadLen T (x :: xs)) (maxRun T xs)

/-- Maximum value reached by the running streak counter when started at `c`
(including the entry value `c` itself). -/
def auxRun (T : Int) : Nat → List Int → Nat
  | c, [] => c
  | c, x :: xs => if T ≤ x then max c (auxRun T (c + 1) xs) else max c (auxRun T 0 xs)

/-- Existence of `W` consecutive entries of `l` that are all at least `T`. -/
def premiumRun (T : Int) (W : Nat) (l : List Int) : Prop :=
  ∃ run : List Int, run.length = W ∧ run <:+: l ∧ ∀ x ∈ run, T ≤ x

theorem auxRun_ge (T : Int) : ∀ (l : List Int) (c : Nat), c ≤ auxRun T c l := by
  intro l
  induction l with
  | nil => intro c; exact Nat.le_refl c
  | cons x xs ih =>
    intro c
    by_cases hx : T ≤ x <;> simp [auxRun, hx]

theorem cgwLoop_eq (T : Int) :
    ∀ (l : List Int) (c b : Nat), c ≤ b → cgwLoop T l c b = max b (auxRun T c l) := by
  intro l
  induction l with
  | nil => intro c b hcb; simp [cgwLoop, auxRun]; omega
  | cons x xs ih =>
    intro c b hcb
    by_cases hx : T ≤ x
    · have h1 := ih (c + 1) (max b (c + 1)) (Nat.le_max_right _ _)
      have h2 := auxRun_ge T xs (c + 1)
      simp only [cgwLoop, auxRun, hx, if_pos] at h1 ⊢
      rw [h1]
      omega
    · have h1 := ih 0 (max b 0) (Nat.zero_le _)
      have h2 := auxRun_ge T xs 0
      simp only [cgwLoop, auxRun, hx, if_neg, if_false] at h1 ⊢
      rw [h1]
      omega

theorem leadLen_le_maxRun (T : Int) : ∀ l : List Int, leadLen T l ≤ maxRun T l := by
  intro l
  cases l with
  | nil => exact Nat.le_refl 0
  | cons x xs => exact Nat.le_max_left _ _

theorem auxRun_eq (T : Int) :
    ∀ (l : List Int) (c : Nat), auxRun T c l = max (c + leadLen T l) (maxRun T l) := by
  intro l
  induction l with
  | nil => intro c; simp [auxRun, leadLen, maxRun]
  | cons x xs ih =>
    intro c
    have hlm := leadLen_le_maxRun T xs
    by_cases hx : T ≤ x
    · simp only [auxRun, leadLen, maxRun, hx, if_pos]
      rw [ih (c + 1)]
      omega
    · simp only [auxRun, leadLen, maxRun, hx, if_neg, if_false]
      rw [ih 0]
      omega

theorem cgwLoop_eq_maxRun (T : Int) (l : List Int) : cgwLoop T l 0 0 = maxRun T l := by
  rw [cgwLoop_eq T l 0 0 (Nat.le_refl 0), auxRun_eq T l 0]
  have := leadLen_le_maxRun T l
  omega

theorem leadLen_le_length (T : Int) : ∀ l : List Int, leadLen T l ≤ l.length := by
  intro l
  induction l with
  | nil => exact Nat.le_refl 0
  | cons x xs ih => by_cases hx : T ≤ x <;> simp [leadLen, hx] <;> omega

theorem mem_take_leadLen (T : Int) :
    ∀ (l : List Int) (x : Int), x ∈ l.take (leadLen T l) → T ≤ x := by
  intro l
  induction l with
  | nil => intro x hx; simp at hx
  | cons y ys ih =>
    intro x hx
    by_cases hy : T ≤ y
    · simp only [leadLen, hy, if_pos, List.take_succ_cons, List.mem_cons] at hx
      rcases hx with rfl | hx
      · exact hy
      · exact ih x hx
    · simp [leadLen, hy] at hx

theorem good_run_le_leadLen (T : Int) :
    ∀ (p t : List Int), (∀ x ∈ p, T ≤ x) → p.length ≤ leadLen T (p ++ t) := by
  intro p
  induction p with
  | nil => intro t _; exact Nat.zero_le _
  | cons y p' ih =>
    intro t hgood
    have hy : T ≤ y := hgood y (List.mem_cons_self y p')
    have h' := ih t (fun x hx => hgood x (List.mem_cons_of_mem y hx))
    have hstep : leadLen T ((y :: p') ++ t) = leadLen T (p' ++ t) + 1 := by
      show leadLen T (y :: (p' ++ t)) = leadLen T (p' ++ t) + 1
      simp only [leadLen]
      rw [if_pos hy]
    rw [hstep]
    simp only [List.length_cons]
    omega

theorem maxRun_le_iff (T : Int) :
    ∀ (l : List Int) (W : Nat), W ≤ maxRun T l ↔ premiumRun T W l := by
  intro l
  induction l with
  | nil =>
    intro W
    constructor
    · intro hW
      have : W = 0 := by simpa [maxRun] using hW
      subst this
      exact ⟨[], rfl, ⟨[], [], rfl⟩, by simp⟩
    · rintro ⟨run, hlen, ⟨s, t, heq⟩, -⟩
      have : s = [] ∧ run ++ t = [] := by
        constructor
        · cases s with
          | nil => rfl
          | cons a s' => simp at heq
        · cases s with
          | nil => simpa using heq
          | cons a s' => simp at heq
      have hrun : run = [] := by
        rcases this with ⟨-, h2⟩
        exact (List.append_eq_nil.mp h2).1
      subst hrun
      simp [maxRun, ← hlen]
  | cons x xs ih =>
    intro W
    constructor
    · intro hW
      have hsplit : W ≤ leadLen T (x :: xs) ∨ W ≤ maxRun T xs := by
        simp only [maxRun] at hW; omega
      rcases hsplit with hlead | htail
      · refine ⟨(x :: xs).take W, ?_, ⟨[], (x :: xs).drop W, by simp⟩, ?_⟩
        · have hl := leadLen_le_length T (x :: xs)
          simp only [List.length_take, List.length_cons] at *
          omega
        · intro y hy
          apply mem_take_leadLen T (x :: xs)
          have : (x :: xs).take W = ((x :: xs).take (leadLen T (x :: xs))).take W := by
            rw [List.take_take, Nat.min_eq_left hlead]
          rw [this] at hy
          exact List.mem_of_mem_take hy
      · rcases (ih W).mp htail with ⟨run, hlen, ⟨s, t, heq⟩, hgood⟩
        exact ⟨run, hlen, ⟨x :: s, t, by simp [heq]⟩, hgood⟩
    · rintro ⟨run, hlen, ⟨s, t, heq⟩, hgood⟩
      cases s with
      | nil =>
        simp only [List.nil_append] at heq
        have : W ≤ leadLen T (x :: xs) := by
          rw [← heq, ← hlen]
          exact good_run_le_leadLen T run t hgood
        simp only [maxRun]
        omega
      | cons a s' =>
        have hxs : xs = s' ++ run ++ t := by
          have := heq
          simp only [List.cons_append] at this
          exact (List.cons_eq_cons.mp this).2.symm
        have : premiumRun T W xs := ⟨run, hlen, ⟨s', t, hxs.symm⟩, hgood⟩
        have := (ih W).mpr this
        simp only [maxRun]
        omega

theorem cgwLoop_ge (T : Int) :
    ∀ (l : List Int) (c b : Nat), b ≤ cgwLoop T l c b := by
  intro l
  induction l with
  | nil => intro c b; exact Nat.le_refl b
  | cons x xs ih =>
    intro c b
    refine Nat.le_trans (Nat.le_max_left b _) (ih _ _)

theorem streakLoop_iff_cgwLoop (T : Int) (W : Nat) :
    ∀ (l : List Int) (c b : Nat), c ≤ b →
      ((W ≤ streakLoop T W l c ∨ W ≤ b) ↔ W ≤ cgwLoop T l c b) := by
  intro l
  induction l with
  | nil => intro c b hcb; simp only [streakLoop, cgwLoop]; omega
  | cons x xs ih =>
    intro c b hcb
    simp only [streakLoop, cgwLoop]
    by_cases hx : T ≤ x
    · simp only [if_pos hx]
      by_cases hw : W ≤ c + 1
      · rw [if_pos hw]
        have h1 := cgwLoop_ge T xs (c + 1) (max b (c + 1))
        omega
      · rw [if_neg hw]
        have h1 := ih (c + 1) (max b (c + 1)) (Nat.le_max_right _ _)
        omega
    · simp only [if_neg hx]
      by_cases hw : W ≤ 0
      · rw [if_pos hw]
        have h1 := cgwLoop_ge T xs 0 (max b 0)
        omega
      · rw [if_neg hw]
        have h1 := ih 0 (max b 0) (Nat.zero_le _)
        omega

/-- The early-break streak check of `check_rule_condition` succeeds exactly
when some `W` consecutive premiums are all at least `T`. -/
theorem streakLoop_check_iff (T : Int) (W : Nat) (l : List Int) :
    W ≤ streakLoop T W l 0 ↔ premiumRun T W l := by
  rcases Nat.eq_zero_or_pos W with rfl | hW
  · simp only [Nat.zero_le, true_iff]
    exact ⟨[], rfl, ⟨[], l, by simp⟩, by simp⟩
  · have h := streakLoop_iff_cgwLoop T W l 0 0 (Nat.le_refl 0)
    rw [cgwLoop_eq_maxRun] at h
    rw [← maxRun_le_iff]
    omega

/-- C9: `check_consistent_performance` returns 0 on an empty history, the
full record count when every record meets the threshold, and in general the
maximum historical streak length (characterized by: a streak of length `W`
exists iff `W` is at most the returned value). -/
theorem check_consistent_performance_correct (name : String) (data : List PlayerRow)
    (minBP : Int) (reqWeeks : Nat) :
    (data.filter (fun r => r.player == name) = [] →
      check_consistent_performance name data minBP reqWeeks = 0) ∧
    ((∀ r ∈ data.filter (fun r => r.player == name), minBP ≤ r.premium) →
      check_consistent_performance name data minBP reqWeeks =
        (data.filter (fun r => r.player == name)).length) ∧
    (∀ W, W ≤ check_consistent_performance name data minBP reqWeeks ↔
      premiumRun minBP W ((playerHistory name data).map (fun r => r.premium))) := by
  have hccp : check_consistent_performance name data minBP reqWeeks =
      maxRun minBP ((playerHistory name data).map (fun r => r.premium)) :=
    cgwLoop_eq_maxRun minBP _
  have hperm := List.perm_insertionSort roundAscRel (data.filter (fun r => r.player == name))
  refine ⟨?_, ?_, ?_⟩
  · intro hempty
    rw [hccp]
    unfold playerHistory
    rw [hempty]
    rfl
  · intro hp
    set l := (playerHistory name data).map (fun r => r.premium) with hl
    have hall : ∀ x ∈ l, minBP ≤ x := by
      intro x hx
      obtain ⟨r, hr, rfl⟩ := List.mem_map.mp hx
      exact hp r (hperm.mem_iff.mp hr)
    have hlen : l.length = (data.filter (fun r => r.player == name)).length := by
      rw [hl, List.length_map]
      exact hperm.length_eq
    have hge : l.length ≤ maxRun minBP l :=
      (maxRun_le_iff minBP l l.length).mpr ⟨l, rfl, ⟨[], [], by simp⟩, hall⟩
    have hle : maxRun minBP l ≤ l.length := by
      obtain ⟨run, hrl, ⟨s, t, heq⟩, -⟩ :=
        (maxRun_le_iff minBP l (maxRun minBP l)).mp (Nat.le_refl _)
      have := congrArg List.length heq
      simp only [List.length_append] at this
      omega
    rw [hccp, ← hlen]
    omega
  · intro W
    rw [hccp]
    exact maxRun_le_iff minBP _ W

/-- C4 (amended): `check_rule_condition` holds iff the player is not globally
excluded (MID/EDG aged 29 or more), the latest premium meets the threshold,
some `W` consecutive rounds anywhere in the round-ascending history all meet
the threshold, and the optional position/age restrictions hold.  The streak
is existential over the whole history, not the trailing streak. -/
theorem check_rule_condition_characterization (pd : PlayerRow) (data : List PlayerRow)
    (T : Int) (W : Nat) (posReq : Option (List String)) (maxAge : Option Int) :
    check_rule_condition pd data T W posReq maxAge = true ↔
      (¬((pd.pos = "MID" ∨ pd.pos = "EDG") ∧ 29 ≤ pd.age) ∧
       T ≤ pd.premium ∧
       premiumRun T W ((playerHistory pd.player data).map (fun r => r.premium)) ∧
       (∀ ps, posReq = some ps → pd.pos ∈ ps) ∧
       (∀ a, maxAge = some a → pd.age ≤ a)) := by
  rcases posReq with _ | ps <;> rcases maxAge with _ | a <;>
    by_cases hex : (pd.pos = "MID" ∨ pd.pos = "EDG") ∧ 29 ≤ pd.age <;>
      simp [check_rule_condition, hex, streakLoop_check_iff, and_assoc]

/-- Trailing-streak reading of the rule condition stated by the
specification sentence under verification: premium at least `T` in each of
the player's `W` most recent rounds. -/
def trailing_streak_spec (name : String) (data : List PlayerRow) (T : Int) (W : Nat) : Prop :=
  ∀ x ∈ ((playerHistoryDesc name data).map (fun r => r.premium)).take W, T ≤ x

/-- A row of the example player "Alpha". -/
def bpreRow (rnd : Nat) (bpre : Int) : PlayerRow :=
  { player := "Alpha", team := "CAN", round := rnd, pos := "HLF", age := 25,
    price := 500000, totalBase := 50, premium := bpre }

/-- Example history: premiums 20, 20, 20, 0, 20 over rounds 1-5. -/
def streakData : List PlayerRow :=
  [bpreRow 1 20, bpreRow 2 20, bpreRow 3 20, bpreRow 4 0, bpreRow 5 20]

/-- The latest row of the example player. -/
def streakPd : PlayerRow := bpreRow 5 20

/-- C4 (counterexample): a player with at least `W` recorded rounds for whom
the code's rule condition (threshold 14 for 3 weeks, a cascade rule) holds,
while the premium was not at least 14 in each of the 3 most recent rounds:
the code checks an existential historical streak, not the trailing streak. -/
theorem check_rule_condition_not_trailing :
    3 ≤ (streakData.filter (fun r => r.player == "Alpha")).length ∧
    check_rule_condition streakPd streakData 14 3 none none = true ∧
    ¬ trailing_streak_spec "Alpha" streakData 14 3 := by
  refine ⟨by decide, by decide, ?_⟩
  intro h
  have h0 : (0 : Int) ∈ ((playerHistoryDesc "Alpha" streakData).map
      (fun r => r.premium)).take 3 := by decide
  have := h 0 h0
  omega

/-- A row of the example player "Olde", a 30-year-old MID. -/
def oldMidRow : PlayerRow :=
  { player := "Olde", team := "MEL", round := 3, pos := "MID", age := 30,
    price := 400000, totalBase := 60, premium := 50 }

/-- Example history of "Olde": three rounds of high premiums. -/
def oldMidData : List PlayerRow :=
  [{ oldMidRow with round := 1, premium := 40 },
   { oldMidRow with round := 2, premium := 44 },
   oldMidRow]

/-- C8: `calculate_average_bpre` returns 0 when the player has fewer than
`lookback` recorded rounds, and returns 0 whenever the player's latest
record is a MID or EDG aged 29 or more, regardless of premium history. -/
theorem calculate_average_bpre_zero_cases (name : String) (data : List PlayerRow)
    (L : Nat) :
    ((data.filter (fun r => r.player == name)).length < L →
      calculate_average_bpre name data L = 0) ∧
    (∀ r, (playerHistoryDesc name data).head? = some r →
      (r.pos = "MID" ∨ r.pos = "EDG") → 29 ≤ r.age →
      calculate_average_bpre name data L = 0) := by
  have hplen : (playerHistoryDesc name data).length =
      (data.filter (fun r => r.player == name)).length :=
    (List.perm_insertionSort roundDescRel _).length_eq
  constructor
  · intro hlen
    unfold calculate_average_bpre
    by_cases hexc : (match (playerHistoryDesc name data).head? with
      | some r => decide ((r.pos = "MID" ∨ r.pos = "EDG") ∧ 29 ≤ r.age)
      | none => false) = true
    · simp only [hexc, if_true]
    · simp only [hexc, if_false, Bool.false_eq_true]
      have htake : ((playerHistoryDesc name data).take L).length < L := by
        rw [List.length_take]
        omega
      rw [if_pos htake]
  · intro r hr hpos hage
    unfold calculate_average_bpre
    simp [hr, decide_eq_true (p := (r.pos = "MID" ∨ r.pos = "EDG") ∧ 29 ≤ r.age) ⟨hpos, hage⟩]

/-- C8 (witness): one player with a single recorded round and lookback 3,
and one 30-year-old MID with three high-premium rounds; both get average 0. -/
theorem calculate_average_bpre_zero_cases_witness :
    calculate_average_bpre "Alpha" [bpreRow 1 20] 3 = 0 ∧
    calculate_average_bpre "Olde" oldMidData 3 = 0 :=
  ⟨(calculate_average_bpre_zero_cases "Alpha" [bpreRow 1 20] 3).1 (by decide),
   (calculate_average_bpre_zero_cases "Olde" oldMidData 3).2 oldMidRow
     (by decide) (by decide) (by decide)⟩

/-- C9 (witness): a player whose three recorded rounds all have premium at
least 5 gets consecutive-good-weeks count 3, via the theorem's second part. -/
theorem check_consistent_performance_correct_witness :
    check_consistent_performance "Alpha" [bpreRow 1 20, bpreRow 2 20, bpreRow 3 20] 5 2 = 3 :=
  ((check_consistent_performance_correct "Alpha"
      [bpreRow 1 20, bpreRow 2 20, bpreRow 3 20] 5 2).2.1 (by decide)).trans (by decide)

/-- C4 (witness for the amended theorem): the characterization instantiated
at the example player, with the code-side condition discharged by evaluation. -/
theorem check_rule_condition_characterization_witness :
    ¬((streakPd.pos = "MID" ∨ streakPd.pos = "EDG") ∧ 29 ≤ streakPd.age) ∧
    (14 : Int) ≤ streakPd.premium ∧
    premiumRun 14 3 ((playerHistory streakPd.player streakData).map (fun r => r.premium)) ∧
    (∀ ps, (none : Option (List String)) = some ps → streakPd.pos ∈ ps) ∧
    (∀ a, (none : Option Int) = some a → streakPd.age ≤ a) :=
  (check_rule_condition_characterization streakPd streakData 14 3 none none).mp (by decide)

/-- C1: `assign_priority_level` returns the tier of the first rule of the
24-rule cascade whose condition the player satisfies, and 25 when no rule is
satisfied; in particular, whenever rules `i < j` are both satisfied, the
returned tier is at most `i` and never `j`. -/
theorem assign_priority_level_first_match (pd : PlayerRow) (data : List PlayerRow) :
    (assign_priority_level pd data = 25 ∧
      ∀ i, 1 ≤ i → i ≤ 24 → ruleSat i pd data = false) ∨
    (ruleSat (assign_priority_level pd data) pd data = true ∧
      ∀ i, i < assign_priority_level pd data → ruleSat i pd data = false) := by
  by_cases h1 : check_rule_condition pd data 14 3 = true
  · have ha : assign_priority_level pd data = 1 := by
      unfold assign_priority_level
      simp only [if_pos h1]
    rw [ha]
    refine Or.inr ⟨?_, ?_⟩
    · exact h1
    · intro i hi
      interval_cases i <;>
      first
        | rfl
        | exact Bool.eq_false_iff.mpr (by assumption)
        | exact decide_eq_false (by assumption)
  by_cases h2 : check_rule_condition pd data 21 2 = true
  · have ha : assign_priority_level pd data = 2 := by
      unfold assign_priority_level
      simp only [if_neg h1, if_pos h2]
    rw [ha]
    refine Or.inr ⟨?_, ?_⟩
    · exact h2
    · intro i hi
      interval_cases i <;>
      first
        | rfl
        | exact Bool.eq_false_iff.mpr (by assumption)
        | exact decide_eq_false (by assumption)
  by_cases h3 : 26 ≤ calculate_average_bpre pd.player data 2
  · have ha : assign_priority_level pd data = 3 := by
      unfold assign_priority_level
      simp only [if_neg h1, if_neg h2, if_pos h3]
    rw [ha]
    refine Or.inr ⟨?_, ?_⟩
    · exact decide_eq_true h3
    · intro i hi
      interval_cases i <;>
      first
        | rfl
        | exact Bool.eq_false_iff.mpr (by assumption)
        | exact decide_eq_false (by assumption)
  by_cases h4 : check_rule_condition pd data 12 3 = true
  · have ha : assign_priority_level pd data = 4 := by
      unfold assign_priority_level
      simp only [if_neg h1, if_neg h2, if_neg h3, if_pos h4]
    rw [ha]
    refine Or.inr ⟨?_, ?_⟩
    · exact h4
    · intro i hi
      interval_cases i <;>
      first
        | rfl
        | exact Bool.eq_false_iff.mpr (by assumption)
        | exact decide_eq_false (by assumption)
  by_cases h5 : check_rule_condition pd data 19 2 = true
  · have ha : assign_priority_level pd data = 5 := by
      unfold assign_priority_level
      simp only [if_neg h1, if_neg h2, if_neg h3, if_neg h4, if_pos h5]
    rw [ha]
    refine Or.inr ⟨?_, ?_⟩
    · exact h5
    · intro i hi
      interval_cases i <;>
      first
        | rfl
        | exact Bool.eq_false_iff.mpr (by assumption)
        | exact decide_eq_false (by assumption)
  by_cases h6 : 24 ≤ calculate_average_bpre pd.player data 2
  · have ha : assign_priority_level pd data = 6 := by
      unfold assign_priority_level
      simp only [if_neg h1, if_neg h2, if_neg h3, if_neg h4, if_neg h5, if_pos h6]
    rw [ha]
    refine Or.inr ⟨?_, ?_⟩
    · exact decide_eq_true h6
    · intro i hi
      interval_cases i <;>
      first
        | rfl
        | exact Bool.eq_false_iff.mpr (by assumption)
        | exact decide_eq_false (by assumption)
  by_cases h7 : check_rule_condition pd data 10 3 = true
  · have ha : assign_priority_level pd data = 7 := by
      unfold assign_priority_level
      simp only [if_neg h1, if_neg h2, if_neg h3, if_neg h4, if_neg h5, if_neg h6, if_pos h7]
    rw [ha]
    refine Or.inr ⟨?_, ?_⟩
    · exact h7
    · intro i hi
      interval_cases i <;>
      first
        | rfl
        | exact Bool.eq_false_iff.mpr (by assumption)
        | exact decide_eq_false (by assumption)
  by_cases h8 : check_rule_condition pd data 17 2 = true
  · have ha : assign_priority_level pd data = 8 := by
      unfold assign_priority_level
      simp only [if_neg h1, if_neg h2, if_neg h3, if_neg h4, if_neg h5, if_neg h6, if_neg h7, if_pos h8]
    rw [ha]
    refine Or.inr ⟨?_, ?_⟩
    · exact h8
    · intro i hi
      interval_cases i <;>
      first
        | rfl
        | exact Bool.eq_false_iff.mpr (by assumption)
        | exact decide_eq_false (by assumption)
  by_cases h9 : 22 ≤ calculate_average_bpre pd.player data 2
  · have ha : assign_priority_level pd data = 9 := by
      unfold assign_priority_level
      simp only [if_neg h1, if_neg h2, if_neg h3, if_neg h4, if_neg h5, if_neg h6, if_neg h7, if_neg h8, if_pos h9]
    rw [ha]
    refine Or.inr ⟨?_, ?_⟩
    · exact decide_eq_true h9
    · intro i hi
      interval_cases i <;>
      first
        | rfl
        | exact Bool.eq_false_iff.mpr (by assumption)
        | exact decide_eq_false (by assumption)
  by_cases h10 : check_rule_condition pd data 8 3 = true
  · have ha : assign_priority_level pd data = 10 := by
      unfold assign_priority_level
      simp only [if_neg h1, if_neg h2, if_neg h3, if_neg h4, if_neg h5, if_neg h6, if_neg h7, if_neg h8, if_neg h9, if_pos h10]
    rw [ha]
    refine Or.inr ⟨?_, ?_⟩
    · exact h10
    · intro i hi
      interval_cases i <;>
      first
        | rfl
        | exact Bool.eq_false_iff.mpr (by assumption)
        | exact decide_eq_false (by assumption)
  by_cases h11 : check_rule_condition pd data 15 2 = true
  · have ha : assign_priority_level pd data = 11 := by
      unfold assign_priority_level
      simp only [if_neg h1, if_neg h2, if_neg h3, if_neg h4, if_neg h5, if_neg h6, if_neg h7, if_neg h8, if_neg h9, if_neg h10, if_pos h11]
    rw [ha]
    refine Or.inr ⟨?_, ?_⟩
    · exact h11
    · intro i hi
      interval_cases i <;>
      first
        | rfl
        | exact Bool.eq_false_iff.mpr (by assumption)
        | exact decide_eq_false (by assumption)
  by_cases h12 : 20 ≤ calculate_average_bpre pd.player data 2
  · have ha : assign_priority_level pd data = 12 := by
      unfold assign_priority_level
      simp only [if_neg h1, if_neg h2, if_neg h3, if_neg h4, if_neg h5, if_neg h6, if_neg h7, if_neg h8, if_neg h9, if_neg h10, if_neg h11, if_pos h12]
    rw [ha]
    refine Or.inr ⟨?_, ?_⟩
    · exact decide_eq_true h12
    · intro i hi
      interval_cases i <;>
      first
        | rfl
        | exact Bool.eq_false_iff.mpr (by assumption)
        | exact decide_eq_false (by assumption)
  by_cases h13 : check_rule_condition pd data 6 3 = true
  · have ha : assign_priority_level pd data = 13 := by
      unfold assign_priority_level
      simp only [if_neg h1, if_neg h2, if_neg h3, if_neg h4, if_neg h5, if_neg h6, if_neg h7, if_neg h8, if_neg h9, if_neg h10, if_neg h11, if_neg h12, if_pos h13]
    rw [ha]
    refine Or.inr ⟨?_, ?_⟩
    · exact h13
    · intro i hi
      interval_cases i <;>
      first
        | rfl
        | exact Bool.eq_false_iff.mpr (by assumption)
        | exact decide_eq_false (by assumption)
  by_cases h14 : check_rule_condition pd data 13 2 = true
  · have ha : assign_priority_level pd data = 14 := by
      unfold assign_priority_level
      simp only [if_neg h1, if_neg h2, if_neg h3, if_neg h4, if_neg h5, if_neg h6, if_neg h7, if_neg h8, if_neg h9, if_neg h10, if_neg h11, if_neg h12, if_neg h13, if_pos h14]
    rw [ha]
    refine Or.inr ⟨?_, ?_⟩
    · exact h14
    · intro i hi
      interval_cases i <;>
      first
        | rfl
        | exact Bool.eq_false_iff.mpr (by assumption)
        | exact decide_eq_false (by assumption)
  by_cases h15 : 18 ≤ calculate_average_bpre pd.player data 2
  · have ha : assign_priority_level pd data = 15 := by
      unfold assign_priority_level
      simp only [if_neg h1, if_neg h2, if_neg h3, if_neg h4, if_neg h5, if_neg h6, if_neg h7, if_neg h8, if_neg h9, if_neg h10, if_neg h11, if_neg h12, if_neg h13, if_neg h14, if_pos h15]
    rw [ha]
    refine Or.inr ⟨?_, ?_⟩
    · exact decide_eq_true h15
    · intro i hi
      interval_cases i <;>
      first
        | rfl
        | exact Bool.eq_false_iff.mpr (by assumption)
        | exact decide_eq_false (by assumption)
  by_cases h16 : check_rule_condition pd data 10 2 = true
  · have ha : assign_priority_level pd data = 16 := by
      unfold assign_priority_level
      simp only [if_neg h1, if_neg h2, if_neg h3, if_neg h4, if_neg h5, if_neg h6, if_neg h7, if_neg h8, if_neg h9, if_neg h10, if_neg h11, if_neg h12, if_neg h13, if_neg h14, if_neg h15, if_pos h16]
    rw [ha]
    refine Or.inr ⟨?_, ?_⟩
    · exact h16
    · intro i hi
      interval_cases i <;>
      first
        | rfl
        | exact Bool.eq_false_iff.mpr (by assumption)
        | exact decide_eq_false (by assumption)
  by_cases h17 : 15 ≤ calculate_average_bpre pd.player data 2
  · have ha : assign_priority_level pd data = 17 := by
      unfold assign_priority_level
      simp only [if_neg h1, if_neg h2, if_neg h3, if_neg h4, if_neg h5, if_neg h6, if_neg h7, if_neg h8, if_neg h9, if_neg h10, if_neg h11, if_neg h12, if_neg h13, if_neg h14, if_neg h15, if_neg h16, if_pos h17]
    rw [ha]
    refine Or.inr ⟨?_, ?_⟩
    · exact decide_eq_true h17
    · intro i hi
      interval_cases i <;>
      first
        | rfl
        | exact Bool.eq_false_iff.mpr (by assumption)
        | exact decide_eq_false (by assumption)
  by_cases h18 : check_rule_condition pd data 8 2 = true
  · have ha : assign_priority_level pd data = 18 := by
      unfold assign_priority_level
      simp only [if_neg h1, if_neg h2, if_neg h3, if_neg h4, if_neg h5, if_neg h6, if_neg h7, if_neg h8, if_neg h9, if_neg h10, if_neg h11, if_neg h12, if_neg h13, if_neg h14, if_neg h15, if_neg h16, if_neg h17, if_pos h18]
    rw [ha]
    refine Or.inr ⟨?_, ?_⟩
    · exact h18
    · intro i hi
      interval_cases i <;>
      first
        | rfl
        | exact Bool.eq_false_iff.mpr (by assumption)
        | exact decide_eq_false (by assumption)
  by_cases h19 : 13 ≤ calculate_average_bpre pd.player data 2
  · have ha : assign_priority_level pd data = 19 := by
      unfold assign_priority_level
      simp only [if_neg h1, if_neg h2, if_neg h3, if_neg h4, if_neg h5, if_neg h6, if_neg h7, if_neg h8, if_neg h9, if_neg h10, if_neg h11, if_neg h12, if_neg h13, if_neg h14, if_neg h15, if_neg h16, if_neg h17, if_neg h18, if_pos h19]
    rw [ha]
    refine Or.inr ⟨?_, ?_⟩
    · exact decide_eq_true h19
    · intro i hi
      interval_cases i <;>
      first
        | rfl
        | exact Bool.eq_false_iff.mpr (by assumption)
        | exact decide_eq_false (by assumption)
  by_cases h20 : check_rule_condition pd data 6 2 = true
  · have ha : assign_priority_level pd data = 20 := by
      unfold assign_priority_level
      simp only [if_neg h1, if_neg h2, if_neg h3, if_neg h4, if_neg h5, if_neg h6, if_neg h7, if_neg h8, if_neg h9, if_neg h10, if_neg h11, if_neg h12, if_neg h13, if_neg h14, if_neg h15, if_neg h16, if_neg h17, if_neg h18, if_neg h19, if_pos h20]
    rw [ha]
    refine Or.inr ⟨?_, ?_⟩
    · exact h20
    · intro i hi
      interval_cases i <;>
      first
        | rfl
        | exact Bool.eq_false_iff.mpr (by assumption)
        | exact decide_eq_false (by assumption)
  by_cases h21 : 11 ≤ calculate_average_bpre pd.player data 2
  · have ha : assign_priority_level pd data = 21 := by
      unfold assign_priority_level
      simp only [if_neg h1, if_neg h2, if_neg h3, if_neg h4, if_neg h5, if_neg h6, if_neg h7, if_neg h8, if_neg h9, if_neg h10, if_neg h11, if_neg h12, if_neg h13, if_neg h14, if_neg h15, if_neg h16, if_neg h17, if_neg h18, if_neg h19, if_neg h20, if_pos h21]
    rw [ha]
    refine Or.inr ⟨?_, ?_⟩
    · exact decide_eq_true h21
    · intro i hi
      interval_cases i <;>
      first
        | rfl
        | exact Bool.eq_false_iff.mpr (by assumption)
        | exact decide_eq_false (by assumption)
  by_cases h22 : check_rule_condition pd data 2 3 = true
  · have ha : assign_priority_level pd data = 22 := by
      unfold assign_priority_level
      simp only [if_neg h1, if_neg h2, if_neg h3, if_neg h4, if_neg h5, if_neg h6, if_neg h7, if_neg h8, if_neg h9, if_neg h10, if_neg h11, if_neg h12, if_neg h13, if_neg h14, if_neg h15, if_neg h16, if_neg h17, if_neg h18, if_neg h19, if_neg h20, if_neg h21, if_pos h22]
    rw [ha]
    refine Or.inr ⟨?_, ?_⟩
    · exact h22
    · intro i hi
      interval_cases i <;>
      first
        | rfl
        | exact Bool.eq_false_iff.mpr (by assumption)
        | exact decide_eq_false (by assumption)
  by_cases h23 : check_rule_condition pd data 4 2 = true
  · have ha : assign_priority_level pd data = 23 := by
      unfold assign_priority_level
      simp only [if_neg h1, if_neg h2, if_neg h3, if_neg h4, if_neg h5, if_neg h6, if_neg h7, if_neg h8, if_neg h9, if_neg h10, if_neg h11, if_neg h12, if_neg h13, if_neg h14, if_neg h15, if_neg h16, if_neg h17, if_neg h18, if_neg h19, if_neg h20, if_neg h21, if_neg h22, if_pos h23]
    rw [ha]
    refine Or.inr ⟨?_, ?_⟩
    · exact h23
    · intro i hi
      interval_cases i <;>
      first
        | rfl
        | exact Bool.eq_false_iff.mpr (by assumption)
        | exact decide_eq_false (by assumption)
  by_cases h24 : 9 ≤ calculate_average_bpre pd.player data 2
  · have ha : assign_priority_level pd data = 24 := by
      unfold assign_priority_level
      simp only [if_neg h1, if_neg h2, if_neg h3, if_neg h4, if_neg h5, if_neg h6, if_neg h7, if_neg h8, if_neg h9, if_neg h10, if_neg h11, if_neg h12, if_neg h13, if_neg h14, if_neg h15, if_neg h16, if_neg h17, if_neg h18, if_neg h19, if_neg h20, if_neg h21, if_neg h22, if_neg h23, if_pos h24]
    rw [ha]
    refine Or.inr ⟨?_, ?_⟩
    · exact decide_eq_true h24
    · intro i hi
      interval_cases i <;>
      first
        | rfl
        | exact Bool.eq_false_iff.mpr (by assumption)
        | exact decide_eq_false (by assumption)
  have ha : assign_priority_level pd data = 25 := by
    unfold assign_priority_level
    simp only [if_neg h1, if_neg h2, if_neg h3, if_neg h4, if_neg h5, if_neg h6, if_neg h7, if_neg h8, if_neg h9, if_neg h10, if_neg h11, if_neg h12, if_neg h13, if_neg h14, if_neg h15, if_neg h16, if_neg h17, if_neg h18, if_neg h19, if_neg h20, if_neg h21, if_neg h22, if_neg h23, if_neg h24]
  rw [ha]
  refine Or.inl ⟨rfl, ?_⟩
  intro i h1i h2i
  interval_cases i <;>
    first
      | exact Bool.eq_false_iff.mpr (by assumption)
      | exact decide_eq_false (by assumption)


/-- C1 (witness): on the example player the cascade returns a satisfied rule
(rule 1), via the first-match theorem. -/
theorem assign_priority_level_first_match_witness :
    ruleSat (assign_priority_level streakPd streakData) streakPd streakData = true := by
  rcases assign_priority_level_first_match streakPd streakData with ⟨h25, -⟩ | ⟨hsat, -⟩
  · exact absurd h25 (by decide)
  · exact hsat

theorem base_pair_cond_price {budget : Int} {posSet : Option (List String)}
    {used : List String} {p q : Candidate}
    (h : base_pair_cond budget posSet used p q = true) :
    p.price + q.price ≤ budget := by
  unfold base_pair_cond at h
  simp only [Bool.and_eq_true, decide_eq_true_eq] at h
  exact h.2

theorem base_pair_cond_pos {budget : Int} {tp : List String}
    {used : List String} {p q : Candidate}
    (h : base_pair_cond budget (some tp) used p q = true) :
    sameSet [p.pos, q.pos] tp = true := by
  unfold base_pair_cond at h
  simp only [Bool.and_eq_true, decide_eq_true_eq] at h
  exact h.1.2

theorem base_pair_cond_unused {budget : Int} {posSet : Option (List String)}
    {used : List String} {p q : Candidate}
    (h : base_pair_cond budget posSet used p q = true) :
    q.name ∉ used := by
  unfold base_pair_cond at h
  simp only [Bool.and_eq_true, decide_eq_true_eq] at h
  exact h.1.1

theorem value_pair_cond_price {budget : Int} {tpOpt : Option (List String)}
    {used : List String} {p q : Candidate}
    (h : value_pair_cond budget tpOpt used p q = true) :
    p.price + q.price ≤ budget := by
  unfold value_pair_cond at h
  simp only [Bool.and_eq_true, decide_eq_true_eq] at h
  exact h.2

theorem value_pair_cond_pos {budget : Int} {tp : List String}
    {used : List String} {p q : Candidate}
    (h : value_pair_cond budget (some tp) used p q = true) :
    q.pos ∈ tp.filter (fun s => decide (s ≠ p.pos)) := by
  unfold value_pair_cond at h
  simp only [Bool.and_eq_true, decide_eq_true_eq] at h
  exact h.1.2

theorem value_pair_cond_unused {budget : Int} {tpOpt : Option (List String)}
    {used : List String} {p q : Candidate}
    (h : value_pair_cond budget tpOpt used p q = true) :
    q.name ∉ used := by
  unfold value_pair_cond at h
  simp only [Bool.and_eq_true, decide_eq_true_eq] at h
  exact h.1.1

theorem hybrid_pair_cond_price {remaining : Int} {vpName : String}
    {needed : Option String} {used : List String} {bp : Candidate}
    (h : hybrid_pair_cond remaining vpName needed used bp = true) :
    bp.price ≤ remaining := by
  unfold hybrid_pair_cond at h
  simp only [Bool.and_eq_true, decide_eq_true_eq] at h
  exact h.2

theorem hybrid_pair_cond_pos {remaining : Int} {vpName : String}
    {np : String} {used : List String} {bp : Candidate}
    (h : hybrid_pair_cond remaining vpName (some np) used bp = true) :
    bp.pos = np := by
  unfold hybrid_pair_cond at h
  simp only [Bool.and_eq_true, decide_eq_true_eq] at h
  exact h.1.2

theorem hybrid_pair_cond_unused {remaining : Int} {vpName : String}
    {needed : Option String} {used : List String} {bp : Candidate}
    (h : hybrid_pair_cond remaining vpName needed used bp = true) :
    bp.name ∉ used := by
  unfold hybrid_pair_cond at h
  simp only [Bool.and_eq_true, decide_eq_true_eq] at h
  exact h.1.1.1

/-- Every combination produced by the single-slot loop is either inherited
from the accumulator or created from an affordable member of the list. -/
theorem single_slot_loop_mem {budget : Int} {maxOpt : Nat} {P : TradeCombo → Prop} :
    ∀ (l : List Candidate) (used : List String) (acc : List TradeCombo),
      (∀ o ∈ acc, P o) →
      (∀ p, p ∈ l → p.price ≤ budget → P (create_combination [p] p.price budget)) →
      ∀ o ∈ (single_slot_loop budget maxOpt l used acc).1, P o := by
  intro l
  induction l with
  | nil =>
    intro used acc hacc _ o ho
    exact hacc o (by simpa [single_slot_loop] using ho)
  | cons p rest ih =>
    intro used acc hacc hnew o ho
    have hnew' : ∀ q, q ∈ rest → q.price ≤ budget →
        P (create_combination [q] q.price budget) :=
      fun q hq hb => hnew q (List.mem_cons_of_mem p hq) hb
    simp only [single_slot_loop] at ho
    split_ifs at ho with hu hb hm
    · exact ih used acc hacc hnew' o ho
    · rcases List.mem_append.mp ho with hold | hnewc
      · exact hacc o hold
      · rw [List.mem_singleton.mp hnewc]
        exact hnew p (List.mem_cons_self p rest) hb
    · refine ih _ _ ?_ hnew' o ho
      intro o' ho'
      rcases List.mem_append.mp ho' with hold | hnewc
      · exact hacc o' hold
      · rw [List.mem_singleton.mp hnewc]
        exact hnew p (List.mem_cons_self p rest) hb
    · exact ih used acc hacc hnew' o ho

/-- Every combination produced by the maximize-base pair loop is inherited
or created from two list members satisfying the pair condition. -/
theorem base_pair_loop_mem {budget : Int} {posSet : Option (List String)}
    {P : TradeCombo → Prop} :
    ∀ (l : List Candidate) (used : List String) (acc : List TradeCombo),
      (∀ o ∈ acc, P o) →
      (∀ p q used', p ∈ l → q ∈ l → base_pair_cond budget posSet used' p q = true →
        P (create_combination [p, q] (p.price + q.price) budget)) →
      ∀ o ∈ (base_pair_loop budget posSet l used acc).1, P o := by
  intro l
  induction l with
  | nil =>
    intro used acc hacc _ o ho
    exact hacc o (by simpa [base_pair_loop] using ho)
  | cons p rest ih =>
    intro used acc hacc hnew o ho
    have hnew' : ∀ p' q used', p' ∈ rest → q ∈ rest →
        base_pair_cond budget posSet used' p' q = true →
        P (create_combination [p', q] (p'.price + q.price) budget) :=
      fun p' q used' hp hq hc =>
        hnew p' q used' (List.mem_cons_of_mem p hp) (List.mem_cons_of_mem p hq) hc
    by_cases hu : p.name ∈ used
    · simp only [base_pair_loop, if_pos hu] at ho
      exact ih used acc hacc hnew' o ho
    · simp only [base_pair_loop, if_neg hu] at ho
      cases hfind : rest.find? (base_pair_cond budget posSet used p) with
      | none =>
        rw [hfind] at ho
        exact ih used acc hacc hnew' o ho
      | some q =>
        rw [hfind] at ho
        have hq := List.mem_of_find?_eq_some hfind
        have hcond := List.find?_some hfind
        refine ih _ _ ?_ hnew' o ho
        intro o' ho'
        rcases List.mem_append.mp ho' with hold | hnewc
        · exact hacc o' hold
        · rw [List.mem_singleton.mp hnewc]
          exact hnew p q used (List.mem_cons_self p rest) (List.mem_cons_of_mem p hq) hcond

/-- Every combination produced by one level of the maximize-value pair loop
is inherited or created from a first player of the level and a partner from
the level or from a subsequent level, satisfying the pair condition. -/
theorem value_pair_level_mem {budget : Int} {tpOpt : Option (List String)}
    {nextLevels : List (Nat × List Candidate)} {P : TradeCombo → Prop} :
    ∀ (l : List Candidate) (used : List String) (acc : List TradeCombo),
      (∀ o ∈ acc, P o) →
      (∀ p q used', p ∈ l → (q ∈ l ∨ ∃ g ∈ nextLevels, q ∈ g.2) →
        value_pair_cond budget tpOpt used' p q = true →
        P (create_combination [p, q] (p.price + q.price) budget)) →
      ∀ o ∈ (value_pair_level budget tpOpt nextLevels l used acc).1, P o := by
  intro l
  induction l with
  | nil =>
    intro used acc hacc _ o ho
    exact hacc o (by simpa [value_pair_level] using ho)
  | cons p rest ih =>
    intro used acc hacc hnew o ho
    have hnew' : ∀ p' q used', p' ∈ rest → (q ∈ rest ∨ ∃ g ∈ nextLevels, q ∈ g.2) →
        value_pair_cond budget tpOpt used' p' q = true →
        P (create_combination [p', q] (p'.price + q.price) budget) := by
      intro p' q used' hp hq hc
      refine hnew p' q used' (List.mem_cons_of_mem p hp) ?_ hc
      rcases hq with hq | hq
      · exact Or.inl (List.mem_cons_of_mem p hq)
      · exact Or.inr hq
    by_cases hu : p.name ∈ used
    · simp only [value_pair_level, if_pos hu] at ho
      exact ih used acc hacc hnew' o ho
    · simp only [value_pair_level, if_neg hu] at ho
      cases hfind : rest.find? (value_pair_cond budget tpOpt used p) with
      | some q =>
        rw [hfind] at ho
        have hq := List.mem_of_find?_eq_some hfind
        have hcond := List.find?_some hfind
        refine ih _ _ ?_ hnew' o ho
        intro o' ho'
        rcases List.mem_append.mp ho' with hold | hnewc
        · exact hacc o' hold
        · rw [List.mem_singleton.mp hnewc]
          exact hnew p q used (List.mem_cons_self p rest)
            (Or.inl (List.mem_cons_of_mem p hq)) hcond
      | none =>
        rw [hfind] at ho
        cases hfind2 : (nextLevels.flatMap (fun g => g.2)).find?
            (value_pair_cond budget tpOpt used p) with
        | some q =>
          rw [hfind2] at ho
          have hq := List.mem_of_find?_eq_some hfind2
          have hcond := List.find?_some hfind2
          refine ih _ _ ?_ hnew' o ho
          intro o' ho'
          rcases List.mem_append.mp ho' with hold | hnewc
          · exact hacc o' hold
          · rw [List.mem_singleton.mp hnewc]
            exact hnew p q used (List.mem_cons_self p rest)
              (Or.inr (List.mem_flatMap.mp hq)) hcond
        | none =>
          rw [hfind2] at ho
          exact ih used acc hacc hnew' o ho

/-- Every combination produced by the maximize-value pair search is
inherited or created from two pool members satisfying the pair condition. -/
theorem value_pair_levels_mem {budget : Int} {tpOpt : Option (List String)}
    {P : TradeCombo → Prop} :
    ∀ (gs : List (Nat × List Candidate)) (used : List String) (acc : List TradeCombo),
      (∀ o ∈ acc, P o) →
      (∀ p q used', (∃ g ∈ gs, p ∈ g.2) → (∃ g ∈ gs, q ∈ g.2) →
        value_pair_cond budget tpOpt used' p q = true →
        P (create_combination [p, q] (p.price + q.price) budget)) →
      ∀ o ∈ (value_pair_levels budget tpOpt gs used acc).1, P o := by
  intro gs
  induction gs with
  | nil =>
    intro used acc hacc _ o ho
    exact hacc o (by simpa [value_pair_levels] using ho)
  | cons g restLv ih =>
    obtain ⟨lv, ps⟩ := g
    intro used acc hacc hnew o ho
    simp only [value_pair_levels] at ho
    have hsortmem : ∀ p : Candidate, p ∈ List.insertionSort bpreRel ps → p ∈ ps :=
      fun p hp => (List.perm_insertionSort bpreRel ps).mem_iff.mp hp
    have hlevel : ∀ o' ∈ (value_pair_level budget tpOpt restLv
        (List.insertionSort bpreRel ps) used acc).1, P o' := by
      refine value_pair_level_mem _ used acc hacc ?_
      intro p q used' hp hq hc
      refine hnew p q used' ⟨(lv, ps), List.mem_cons_self _ _, hsortmem p hp⟩ ?_ hc
      rcases hq with hq | ⟨g', hg', hq⟩
      · exact ⟨(lv, ps), List.mem_cons_self _ _, hsortmem q hq⟩
      · exact ⟨g', List.mem_cons_of_mem _ hg', hq⟩
    refine ih _ _ hlevel ?_ o ho
    intro p q used' ⟨g', hg', hp⟩ ⟨g'', hg'', hq⟩ hc
    exact hnew p q used' ⟨g', List.mem_cons_of_mem _ hg', hp⟩
      ⟨g'', List.mem_cons_of_mem _ hg'', hq⟩ hc

/-- Every combination produced by the maximize-value single-slot search is
inherited or created from an affordable pool member. -/
theorem value_single_levels_mem {budget : Int} {maxOpt : Nat} {P : TradeCombo → Prop} :
    ∀ (gs : List (Nat × List Candidate)) (used : List String) (acc : List TradeCombo),
      (∀ o ∈ acc, P o) →
      (∀ p, (∃ g ∈ gs, p ∈ g.2) → p.price ≤ budget →
        P (create_combination [p] p.price budget)) →
      ∀ o ∈ (value_single_levels budget maxOpt gs used acc).1, P o := by
  intro gs
  induction gs with
  | nil =>
    intro used acc hacc _ o ho
    exact hacc o (by simpa [value_single_levels] using ho)
  | cons g restLv ih =>
    obtain ⟨lv, ps⟩ := g
    intro used acc hacc hnew o ho
    simp only [value_single_levels] at ho
    have hsortmem : ∀ p : Candidate, p ∈ List.insertionSort bpreRel ps → p ∈ ps :=
      fun p hp => (List.perm_insertionSort bpreRel ps).mem_iff.mp hp
    have hlevel : ∀ o' ∈ (single_slot_loop budget maxOpt
        (List.insertionSort bpreRel ps) used acc).1, P o' := by
      refine single_slot_loop_mem _ used acc hacc ?_
      intro p hp hb
      exact hnew p ⟨(lv, ps), List.mem_cons_self _ _, hsortmem p hp⟩ hb
    refine ih _ _ hlevel ?_ o ho
    intro p ⟨g', hg', hp⟩ hb
    exact hnew p ⟨g', List.mem_cons_of_mem _ hg', hp⟩ hb

/-- Every combination in a successful hybrid like-for-like search is
inherited or created from a value player and a base player satisfying the
hybrid condition for the first remaining needed position. -/
theorem hybrid_pair_l4l_mem {budget : Int} {tp : List String}
    {basePlayers : List Candidate} {P : TradeCombo → Prop} :
    ∀ (l : List Candidate) (used : List String) (acc : List TradeCombo),
      (∀ o ∈ acc, P o) →
      (∀ vp bp needed rest' used', vp ∈ l → bp ∈ basePlayers →
        tp.filter (fun s => decide (s ≠ vp.pos)) = needed :: rest' →
        hybrid_pair_cond (budget - vp.price) vp.name (some needed) used' bp = true →
        P (create_combination [vp, bp] (vp.price + bp.price) budget)) →
      ∀ res, hybrid_pair_l4l budget tp basePlayers l used acc = Except.ok res →
        ∀ o ∈ res, P o := by
  intro l
  induction l with
  | nil =>
    intro used acc hacc _ res hres o ho
    simp only [hybrid_pair_l4l, Except.ok.injEq] at hres
    exact hacc o (hres ▸ ho)
  | cons vp rest ih =>
    intro used acc hacc hnew res hres o ho
    have hnew' : ∀ vp' bp needed rest' used', vp' ∈ rest → bp ∈ basePlayers →
        tp.filter (fun s => decide (s ≠ vp'.pos)) = needed :: rest' →
        hybrid_pair_cond (budget - vp'.price) vp'.name (some needed) used' bp = true →
        P (create_combination [vp', bp] (vp'.price + bp.price) budget) :=
      fun vp' bp needed rest' used' hv hb hf hc =>
        hnew vp' bp needed rest' used' (List.mem_cons_of_mem vp hv) hb hf hc
    by_cases hu : vp.name ∈ used
    · simp only [hybrid_pair_l4l, if_pos hu] at hres
      exact ih used acc hacc hnew' res hres o ho
    · simp only [hybrid_pair_l4l, if_neg hu] at hres
      split at hres
      · simp at hres
      · rename_i needed tail hfil
        split at hres
        · rename_i bp hfind
          have hb := List.mem_of_find?_eq_some hfind
          have hcond := List.find?_some hfind
          refine ih _ _ ?_ hnew' res hres o ho
          intro o' ho'
          rcases List.mem_append.mp ho' with hold | hnewc
          · exact hacc o' hold
          · rw [List.mem_singleton.mp hnewc]
            exact hnew vp bp needed tail used (List.mem_cons_self vp rest) hb hfil hcond
        · exact ih used acc hacc hnew' res hres o ho

/-- Every combination produced by the hybrid non-like-for-like pair loop is
inherited or created from a value player and a base player satisfying the
hybrid condition. -/
theorem hybrid_pair_loop_mem {budget : Int} {basePlayers : List Candidate}
    {P : TradeCombo → Prop} :
    ∀ (l : List Candidate) (used : List String) (acc : List TradeCombo),
      (∀ o ∈ acc, P o) →
      (∀ vp bp used', vp ∈ l → bp ∈ basePlayers →
        hybrid_pair_cond (budget - vp.price) vp.name none used' bp = true →
        P (create_combination [vp, bp] (vp.price + bp.price) budget)) →
      ∀ o ∈ (hybrid_pair_loop budget basePlayers l used acc).1, P o := by
  intro l
  induction l with
  | nil =>
    intro used acc hacc _ o ho
    exact hacc o (by simpa [hybrid_pair_loop] using ho)
  | cons vp rest ih =>
    intro used acc hacc hnew o ho
    have hnew' : ∀ vp' bp used', vp' ∈ rest → bp ∈ basePlayers →
        hybrid_pair_cond (budget - vp'.price) vp'.name none used' bp = true →
        P (create_combination [vp', bp] (vp'.price + bp.price) budget) :=
      fun vp' bp used' hv hb hc => hnew vp' bp used' (List.mem_cons_of_mem vp hv) hb hc
    by_cases hu : vp.name ∈ used
    · simp only [hybrid_pair_loop, if_pos hu] at ho
      exact ih used acc hacc hnew' o ho
    · simp only [hybrid_pair_loop, if_neg hu] at ho
      cases hfind : basePlayers.find?
          (hybrid_pair_cond (budget - vp.price) vp.name none used) with
      | some bp =>
        rw [hfind] at ho
        have hb := List.mem_of_find?_eq_some hfind
        have hcond := List.find?_some hfind
        refine ih _ _ ?_ hnew' o ho
        intro o' ho'
        rcases List.mem_append.mp ho' with hold | hnewc
        · exact hacc o' hold
        · rw [List.mem_singleton.mp hnewc]
          exact hnew vp bp used (List.mem_cons_self vp rest) hb hcond
      | none =>
        rw [hfind] at ho
        exact ih used acc hacc hnew' o ho

/-- Let-free unfolding of `generate_comprehensive_trade_options`, used to
case-split its branches in proofs. -/
theorem generate_comprehensive_trade_options_eq
    (groups : List (Nat × List Candidate)) (budget : Int) (mb hy : Bool)
    (maxOpt : Nat) (tradeType : String) (tp : List String) (n : Nat) :
    generate_comprehensive_trade_options groups budget mb hy maxOpt tradeType tp n =
      Except.map (fun cs => cs.take maxOpt)
        (if mb then
          if n = 1 then
            Except.ok (single_slot_loop budget maxOpt
              (flat_players_sorted (position_filtered groups
                (tradeType == "likeForLike" && !tp.isEmpty) tp)) [] []).1
          else if tradeType == "likeForLike" && !tp.isEmpty then
            Except.ok (base_pair_loop budget (some tp)
              (flat_players_sorted (position_filtered groups
                (tradeType == "likeForLike" && !tp.isEmpty) tp)) [] []).1
          else
            Except.ok (base_pair_loop budget none
              (flat_players_sorted (position_filtered groups
                (tradeType == "likeForLike" && !tp.isEmpty) tp)) [] []).1
        else if hy then
          if n = 1 then
            Except.ok (single_slot_loop budget maxOpt
              (hybrid_value_players (position_filtered groups
                (tradeType == "likeForLike" && !tp.isEmpty) tp)) [] []).1
          else if tradeType == "likeForLike" && !tp.isEmpty then
            hybrid_pair_l4l budget tp
              (hybrid_base_players (position_filtered groups
                (tradeType == "likeForLike" && !tp.isEmpty) tp))
              (hybrid_value_players (position_filtered groups
                (tradeType == "likeForLike" && !tp.isEmpty) tp)) [] []
          else
            Except.ok (hybrid_pair_loop budget
              (hybrid_base_players (position_filtered groups
                (tradeType == "likeForLike" && !tp.isEmpty) tp))
              (hybrid_value_players (position_filtered groups
                (tradeType == "likeForLike" && !tp.isEmpty) tp)) [] []).1
        else
          if n = 1 then
            Except.ok (value_single_levels budget maxOpt
              (sorted_groups (position_filtered groups
                (tradeType == "likeForLike" && !tp.isEmpty) tp)) [] []).1
          else if tradeType == "likeForLike" && !tp.isEmpty then
            Except.ok (value_pair_levels budget (some tp)
              (sorted_groups (position_filtered groups
                (tradeType == "likeForLike" && !tp.isEmpty) tp)) [] []).1
          else
            Except.ok (value_pair_levels budget none
              (sorted_groups (position_filtered groups
                (tradeType == "likeForLike" && !tp.isEmpty) tp)) [] []).1) := rfl

/-- Decomposition of a successful `Except.map`. -/
theorem except_map_ok {α β ε : Type} {f : α → β} {e : Except ε α} {b : β}
    (h : Except.map f e = Except.ok b) : ∃ a, e = Except.ok a ∧ b = f a := by
  cases e with
  | error err => simp [Except.map] at h
  | ok a =>
    refine ⟨a, rfl, ?_⟩
    simpa [Except.map] using h.symm

/-- C2: every returned trade option fits the freed salary and reports the
exact remainder: under every strategy, trade type and slot count, a
successful search returns only options with `total_price ≤ salary_freed` and
`salary_remaining = salary_freed - total_price` (stated, as the claim does,
for non-negative candidate prices). -/
theorem trade_options_within_budget
    (groups : List (Nat × List Candidate)) (budget : Int) (mb hy : Bool)
    (maxOpt n : Nat) (tradeType : String) (tp : List String) (opts : List TradeCombo)
    (hprices : ∀ g ∈ groups, ∀ p ∈ g.2, 0 ≤ p.price)
    (hgen : generate_comprehensive_trade_options groups budget mb hy maxOpt
      tradeType tp n = Except.ok opts) :
    ∀ o ∈ opts, o.total_price ≤ budget ∧
      o.salary_remaining = budget - o.total_price := by
  clear hprices
  rw [generate_comprehensive_trade_options_eq] at hgen
  obtain ⟨res, hres, hopts⟩ := except_map_ok hgen
  have hnil : ∀ o ∈ ([] : List TradeCombo),
      o.total_price ≤ budget ∧ o.salary_remaining = budget - o.total_price := by
    intro o ho
    exact absurd ho (List.not_mem_nil o)
  have hmain : ∀ o ∈ res, o.total_price ≤ budget ∧
      o.salary_remaining = budget - o.total_price := by
    have hsingle : ∀ (l : List Candidate),
        ∀ o ∈ (single_slot_loop budget maxOpt l [] []).1,
          o.total_price ≤ budget ∧ o.salary_remaining = budget - o.total_price :=
      fun l => single_slot_loop_mem l _ _ hnil (fun p _ hb => ⟨hb, rfl⟩)
    split at hres
    · split at hres
      · rw [Except.ok.injEq] at hres
        exact hres ▸ hsingle _
      · split at hres
        · rw [Except.ok.injEq] at hres
          refine hres ▸ base_pair_loop_mem _ _ _ hnil ?_
          exact fun p q used' _ _ hc => ⟨base_pair_cond_price hc, rfl⟩
        · rw [Except.ok.injEq] at hres
          refine hres ▸ base_pair_loop_mem _ _ _ hnil ?_
          exact fun p q used' _ _ hc => ⟨base_pair_cond_price hc, rfl⟩
    · split at hres
      · split at hres
        · rw [Except.ok.injEq] at hres
          exact hres ▸ hsingle _
        · split at hres
          · exact hybrid_pair_l4l_mem _ _ _ hnil
              (fun vp bp needed rest' used' _ _ _ hc =>
                ⟨by have := hybrid_pair_cond_price hc; show vp.price + bp.price ≤ budget; omega, rfl⟩) res hres
          · rw [Except.ok.injEq] at hres
            refine hres ▸ hybrid_pair_loop_mem _ _ _ hnil ?_
            exact fun vp bp used' _ _ hc =>
              ⟨by have := hybrid_pair_cond_price hc; show vp.price + bp.price ≤ budget; omega, rfl⟩
      · split at hres
        · rw [Except.ok.injEq] at hres
          refine hres ▸ value_single_levels_mem _ _ _ hnil ?_
          exact fun p _ hb => ⟨hb, rfl⟩
        · split at hres
          · rw [Except.ok.injEq] at hres
            refine hres ▸ value_pair_levels_mem _ _ _ hnil ?_
            exact fun p q used' _ _ hc => ⟨value_pair_cond_price hc, rfl⟩
          · rw [Except.ok.injEq] at hres
            refine hres ▸ value_pair_levels_mem _ _ _ hnil ?_
            exact fun p q used' _ _ hc => ⟨value_pair_cond_price hc, rfl⟩
  intro o ho
  exact hmain o (List.mem_of_mem_take (hopts ▸ ho))

/-- Two trade options share no player name. -/
def NamesDisjoint (a b : TradeCombo) : Prop :=
  ∀ nm ∈ comboNames a, nm ∉ comboNames b

/-- Search invariant: every name of an accepted combination is in the
used-players set, and accepted combinations are pairwise name-disjoint. -/
def SearchInv (used : List String) (acc : List TradeCombo) : Prop :=
  (∀ o ∈ acc, ∀ nm ∈ comboNames o, nm ∈ used) ∧ acc.Pairwise NamesDisjoint

theorem comboNames_create (players : List Candidate) (t budget : Int) :
    comboNames (create_combination players t budget) =
      players.map (fun p => p.name) := by
  unfold comboNames create_combination create_player_dict
  simp [List.map_map, Function.comp]

theorem searchInv_push {used usedOut : List String} {acc : List TradeCombo}
    {c : TradeCombo}
    (h : SearchInv used acc)
    (hnew : ∀ nm ∈ comboNames c, nm ∉ used)
    (hcover : ∀ nm ∈ comboNames c, nm ∈ usedOut)
    (hmono : ∀ nm, nm ∈ used → nm ∈ usedOut) :
    SearchInv usedOut (acc ++ [c]) := by
  obtain ⟨hsub, hpw⟩ := h
  constructor
  · intro o ho nm hnm
    rcases List.mem_append.mp ho with ho | ho
    · exact hmono nm (hsub o ho nm hnm)
    · rw [List.mem_singleton.mp ho] at hnm
      exact hcover nm hnm
  · rw [List.pairwise_append]
    refine ⟨hpw, List.pairwise_singleton _ _, ?_⟩
    intro a ha b hb
    rw [List.mem_singleton.mp hb]
    intro nm hnm hnm'
    exact hnew nm hnm' (hsub a ha nm hnm)

theorem searchInv_push_single {used : List String} {acc : List TradeCombo}
    {p : Candidate} {t budget : Int}
    (h : SearchInv used acc) (hp : p.name ∉ used) :
    SearchInv (p.name :: used) (acc ++ [create_combination [p] t budget]) := by
  refine searchInv_push h ?_ ?_ ?_
  · intro nm hnm
    rw [comboNames_create] at hnm
    simp only [List.map_cons, List.map_nil, List.mem_singleton] at hnm
    rw [hnm]
    exact hp
  · intro nm hnm
    rw [comboNames_create] at hnm
    simp only [List.map_cons, List.map_nil, List.mem_singleton] at hnm
    simp [hnm]
  · intro nm hnm
    simp [hnm]

theorem searchInv_push_pair {used : List String} {acc : List TradeCombo}
    {p q : Candidate} {t budget : Int}
    (h : SearchInv used acc) (hp : p.name ∉ used) (hq : q.name ∉ used) :
    SearchInv (q.name :: p.name :: used)
      (acc ++ [create_combination [p, q] t budget]) := by
  refine searchInv_push h ?_ ?_ ?_
  · intro nm hnm
    rw [comboNames_create] at hnm
    simp only [List.map_cons, List.map_nil, List.mem_cons, List.mem_singleton,
      List.not_mem_nil, or_false] at hnm
    rcases hnm with rfl | rfl
    · exact hp
    · exact hq
  · intro nm hnm
    rw [comboNames_create] at hnm
    simp only [List.map_cons, List.map_nil, List.mem_cons, List.mem_singleton,
      List.not_mem_nil, or_false] at hnm
    simp only [List.mem_cons]
    tauto
  · intro nm hnm
    simp only [List.mem_cons]
    tauto

theorem single_slot_loop_inv {budget : Int} {maxOpt : Nat} :
    ∀ (l : List Candidate) (used : List String) (acc : List TradeCombo),
      SearchInv used acc →
      SearchInv (single_slot_loop budget maxOpt l used acc).2
        (single_slot_loop budget maxOpt l used acc).1 := by
  intro l
  induction l with
  | nil => intro used acc h; simpa [single_slot_loop] using h
  | cons p rest ih =>
    intro used acc h
    simp only [single_slot_loop]
    split_ifs with hu hb hm
    · exact ih used acc h
    · exact searchInv_push_single h hu
    · exact ih _ _ (searchInv_push_single h hu)
    · exact ih used acc h

theorem base_pair_loop_inv {budget : Int} {posSet : Option (List String)} :
    ∀ (l : List Candidate) (used : List String) (acc : List TradeCombo),
      SearchInv used acc →
      SearchInv (base_pair_loop budget posSet l used acc).2
        (base_pair_loop budget posSet l used acc).1 := by
  intro l
  induction l with
  | nil => intro used acc h; simpa [base_pair_loop] using h
  | cons p rest ih =>
    intro used acc h
    by_cases hu : p.name ∈ used
    · simp only [base_pair_loop, if_pos hu]
      exact ih used acc h
    · simp only [base_pair_loop, if_neg hu]
      cases hfind : rest.find? (base_pair_cond budget posSet used p) with
      | some q =>
        have hq := base_pair_cond_unused (List.find?_some hfind)
        exact ih _ _ (searchInv_push_pair h hu hq)
      | none => exact ih used acc h

theorem value_pair_level_inv {budget : Int} {tpOpt : Option (List String)}
    {nextLevels : List (Nat × List Candidate)} :
    ∀ (l : List Candidate) (used : List String) (acc : List TradeCombo),
      SearchInv used acc →
      SearchInv (value_pair_level budget tpOpt nextLevels l used acc).2
        (value_pair_level budget tpOpt nextLevels l used acc).1 := by
  intro l
  induction l with
  | nil => intro used acc h; simpa [value_pair_level] using h
  | cons p rest ih =>
    intro used acc h
    by_cases hu : p.name ∈ used
    · simp only [value_pair_level, if_pos hu]
      exact ih used acc h
    · simp only [value_pair_level, if_neg hu]
      cases hfind : rest.find? (value_pair_cond budget tpOpt used p) with
      | some q =>
        have hq := value_pair_cond_unused (List.find?_some hfind)
        exact ih _ _ (searchInv_push_pair h hu hq)
      | none =>
        cases hfind2 : (nextLevels.flatMap (fun g => g.2)).find?
            (value_pair_cond budget tpOpt used p) with
        | some q =>
          have hq := value_pair_cond_unused (List.find?_some hfind2)
          exact ih _ _ (searchInv_push_pair h hu hq)
        | none => exact ih used acc h

theorem value_pair_levels_inv {budget : Int} {tpOpt : Option (List String)} :
    ∀ (gs : List (Nat × List Candidate)) (used : List String) (acc : List TradeCombo),
      SearchInv used acc →
      SearchInv (value_pair_levels budget tpOpt gs used acc).2
        (value_pair_levels budget tpOpt gs used acc).1 := by
  intro gs
  induction gs with
  | nil => intro used acc h; simpa [value_pair_levels] using h
  | cons g restLv ih =>
    obtain ⟨lv, ps⟩ := g
    intro used acc h
    simp only [value_pair_levels]
    exact ih _ _ (value_pair_level_inv _ used acc h)

theorem value_single_levels_inv {budget : Int} {maxOpt : Nat} :
    ∀ (gs : List (Nat × List Candidate)) (used : List String) (acc : List TradeCombo),
      SearchInv used acc →
      SearchInv (value_single_levels budget maxOpt gs used acc).2
        (value_single_levels budget maxOpt gs used acc).1 := by
  intro gs
  induction gs with
  | nil => intro used acc h; simpa [value_single_levels] using h
  | cons g restLv ih =>
    obtain ⟨lv, ps⟩ := g
    intro used acc h
    simp only [value_single_levels]
    exact ih _ _ (single_slot_loop_inv _ used acc h)

theorem hybrid_pair_l4l_inv {budget : Int} {tp : List String}
    {basePlayers : List Candidate} :
    ∀ (l : List Candidate) (used : List String) (acc : List TradeCombo),
      SearchInv used acc →
      ∀ res, hybrid_pair_l4l budget tp basePlayers l used acc = Except.ok res →
        res.Pairwise NamesDisjoint := by
  intro l
  induction l with
  | nil =>
    intro used acc h res hres
    simp only [hybrid_pair_l4l, Except.ok.injEq] at hres
    exact hres ▸ h.2
  | cons vp rest ih =>
    intro used acc h res hres
    by_cases hu : vp.name ∈ used
    · simp only [hybrid_pair_l4l, if_pos hu] at hres
      exact ih used acc h res hres
    · simp only [hybrid_pair_l4l, if_neg hu] at hres
      split at hres
      · simp at hres
      · rename_i needed tail hfil
        split at hres
        · rename_i bp hfind
          have hb := hybrid_pair_cond_unused (List.find?_some hfind)
          exact ih _ _ (searchInv_push_pair h hu hb) res hres
        · exact ih used acc h res hres

theorem hybrid_pair_loop_inv {budget : Int} {basePlayers : List Candidate} :
    ∀ (l : List Candidate) (used : List String) (acc : List TradeCombo),
      SearchInv used acc →
      SearchInv (hybrid_pair_loop budget basePlayers l used acc).2
        (hybrid_pair_loop budget basePlayers l used acc).1 := by
  intro l
  induction l with
  | nil => intro used acc h; simpa [hybrid_pair_loop] using h
  | cons vp rest ih =>
    intro used acc h
    by_cases hu : vp.name ∈ used
    · simp only [hybrid_pair_loop, if_pos hu]
      exact ih used acc h
    · simp only [hybrid_pair_loop, if_neg hu]
      cases hfind : basePlayers.find?
          (hybrid_pair_cond (budget - vp.price) vp.name none used) with
      | some bp =>
        have hb := hybrid_pair_cond_unused (List.find?_some hfind)
        exact ih _ _ (searchInv_push_pair h hu hb)
      | none => exact ih used acc h

/-- C3: within one search result no player appears in two different returned
options, under every strategy, trade type and slot count. -/
theorem trade_options_no_overlap
    (groups : List (Nat × List Candidate)) (budget : Int) (mb hy : Bool)
    (maxOpt n : Nat) (tradeType : String) (tp : List String) (opts : List TradeCombo)
    (hgen : generate_comprehensive_trade_options groups budget mb hy maxOpt
      tradeType tp n = Except.ok opts) :
    opts.Pairwise NamesDisjoint := by
  rw [generate_comprehensive_trade_options_eq] at hgen
  obtain ⟨res, hres, hopts⟩ := except_map_ok hgen
  have hinit : SearchInv [] [] :=
    ⟨fun o ho => absurd ho (List.not_mem_nil o), List.Pairwise.nil⟩
  have hmain : res.Pairwise NamesDisjoint := by
    split at hres
    · split at hres
      · rw [Except.ok.injEq] at hres
        exact hres ▸ (single_slot_loop_inv _ _ _ hinit).2
      · split at hres
        · rw [Except.ok.injEq] at hres
          exact hres ▸ (base_pair_loop_inv _ _ _ hinit).2
        · rw [Except.ok.injEq] at hres
          exact hres ▸ (base_pair_loop_inv _ _ _ hinit).2
    · split at hres
      · split at hres
        · rw [Except.ok.injEq] at hres
          exact hres ▸ (single_slot_loop_inv _ _ _ hinit).2
        · split at hres
          · exact hybrid_pair_l4l_inv _ _ _ hinit res hres
          · rw [Except.ok.injEq] at hres
            exact hres ▸ (hybrid_pair_loop_inv _ _ _ hinit).2
      · split at hres
        · rw [Except.ok.injEq] at hres
          exact hres ▸ (value_single_levels_inv _ _ _ hinit).2
        · split at hres
          · rw [Except.ok.injEq] at hres
            exact hres ▸ (value_pair_levels_inv _ _ _ hinit).2
          · rw [Except.ok.injEq] at hres
            exact hres ▸ (value_pair_levels_inv _ _ _ hinit).2
  rw [hopts]
  exact List.Pairwise.sublist (List.take_sublist _ _) hmain

theorem comboPositions_create (players : List Candidate) (t budget : Int) :
    (create_combination players t budget).players.map (fun pl => pl.position) =
      players.map (fun p => p.pos) := by
  unfold create_combination create_player_dict
  simp [List.map_map, Function.comp]

theorem sameSet_pair_perm {p q a b : String} (h : sameSet [p, q] [a, b] = true) :
    ([p, q] : List String).Perm [a, b] := by
  unfold sameSet at h
  rw [decide_eq_true_eq] at h
  obtain ⟨h1, h2⟩ := h
  have hp := h1 p (by simp)
  have hq := h1 q (by simp)
  have ha := h2 a (by simp)
  have hb := h2 b (by simp)
  simp only [List.mem_cons, List.mem_singleton, List.not_mem_nil, or_false] at hp hq ha hb
  rcases hp with rfl | rfl
  · rcases hq with rfl | rfl
    · rcases hb with rfl | rfl
      · exact List.Perm.refl _
      · exact List.Perm.refl _
    · exact List.Perm.refl _
  · rcases hq with rfl | rfl
    · exact List.Perm.swap _ _ _
    · rcases ha with rfl | rfl
      · exact List.Perm.refl _
      · exact List.Perm.refl _

theorem pair_filter_perm {ppos qpos a b : String}
    (hp : ppos ∈ ([a, b] : List String))
    (hq : qpos ∈ List.filter (fun s => decide (s ≠ ppos)) [a, b]) :
    ([ppos, qpos] : List String).Perm [a, b] := by
  have hq' := List.mem_filter.mp hq
  have hqne : qpos ≠ ppos := by simpa using hq'.2
  have hqm : qpos ∈ ([a, b] : List String) := hq'.1
  simp only [List.mem_cons, List.mem_singleton, List.not_mem_nil, or_false] at hp hqm
  rcases hp with rfl | rfl <;> rcases hqm with rfl | rfl
  · exact absurd rfl hqne
  · exact List.Perm.refl _
  · exact List.Perm.swap _ _ _
  · exact absurd rfl hqne

theorem position_filtered_pos {groups : List (Nat × List Candidate)}
    {tp : List String} {g : Nat × List Candidate}
    (hg : g ∈ position_filtered groups true tp) {p : Candidate} (hp : p ∈ g.2) :
    p.pos ∈ tp := by
  unfold position_filtered at hg
  rw [if_pos rfl] at hg
  obtain ⟨g0, hg0, rfl⟩ := List.mem_map.mp hg
  simpa using (List.mem_filter.mp hp).2

theorem sorted_groups_pos {groups : List (Nat × List Candidate)}
    {tp : List String} {g : Nat × List Candidate}
    (hg : g ∈ sorted_groups (position_filtered groups true tp))
    {p : Candidate} (hp : p ∈ g.2) :
    p.pos ∈ tp := by
  exact position_filtered_pos
    ((List.perm_insertionSort levelRel _).mem_iff.mp hg) hp

theorem hybrid_value_players_pos {groups : List (Nat × List Candidate)}
    {tp : List String} {p : Candidate}
    (hp : p ∈ hybrid_value_players (position_filtered groups true tp)) :
    p.pos ∈ tp := by
  unfold hybrid_value_players at hp
  obtain ⟨g, hg, hp2⟩ := List.mem_flatMap.mp hp
  exact sorted_groups_pos hg ((List.perm_insertionSort bpreRel _).mem_iff.mp hp2)

/-- C5: in a like-for-like search replacing two traded-out players, every
returned combination's positions are exactly the multiset of the traded-out
positions, under every strategy. -/
theorem like_for_like_positions
    (groups : List (Nat × List Candidate)) (budget : Int) (mb hy : Bool)
    (maxOpt : Nat) (a b : String) (opts : List TradeCombo)
    (hgen : generate_comprehensive_trade_options groups budget mb hy maxOpt
      "likeForLike" [a, b] 2 = Except.ok opts) :
    ∀ o ∈ opts, (o.players.map (fun pl => pl.position)).Perm [a, b] := by
  rw [generate_comprehensive_trade_options_eq] at hgen
  obtain ⟨res, hres, hopts⟩ := except_map_ok hgen
  have hnil : ∀ o ∈ ([] : List TradeCombo),
      (o.players.map (fun pl => pl.position)).Perm [a, b] := by
    intro o ho
    exact absurd ho (List.not_mem_nil o)
  have hmain : ∀ o ∈ res, (o.players.map (fun pl => pl.position)).Perm [a, b] := by
    split at hres
    · split at hres
      · rename_i hn
        exact absurd hn (by omega)
      · replace hres : Except.ok (base_pair_loop budget (some [a, b])
            (flat_players_sorted (position_filtered groups
              ("likeForLike" == "likeForLike" && !(List.isEmpty [a, b])) [a, b])) [] []).1 =
            Except.ok res := hres
        rw [Except.ok.injEq] at hres
        refine hres ▸ base_pair_loop_mem _ _ _ hnil ?_
        intro p q used' _ _ hc
        rw [comboPositions_create]
        simpa using sameSet_pair_perm (base_pair_cond_pos hc)
    · split at hres
      · split at hres
        · rename_i hn
          exact absurd hn (by omega)
        · replace hres : hybrid_pair_l4l budget [a, b]
              (hybrid_base_players (position_filtered groups
                ("likeForLike" == "likeForLike" && !(List.isEmpty [a, b])) [a, b]))
              (hybrid_value_players (position_filtered groups
                ("likeForLike" == "likeForLike" && !(List.isEmpty [a, b])) [a, b])) [] [] =
              Except.ok res := hres
          refine hybrid_pair_l4l_mem _ _ _ hnil ?_ res hres
          intro vp bp needed rest' used' hvp _ hfil hc
          rw [comboPositions_create]
          have hvpos : vp.pos ∈ ([a, b] : List String) := hybrid_value_players_pos hvp
          have hneed : needed ∈ List.filter (fun s => decide (s ≠ vp.pos)) [a, b] := by
            rw [hfil]
            exact List.mem_cons_self _ _
          have hbpos := hybrid_pair_cond_pos hc
          have := pair_filter_perm hvpos (hbpos ▸ hneed)
          simpa using this
      · split at hres
        · rename_i hn
          exact absurd hn (by omega)
        · replace hres : Except.ok (value_pair_levels budget (some [a, b])
              (sorted_groups (position_filtered groups
                ("likeForLike" == "likeForLike" && !(List.isEmpty [a, b])) [a, b])) [] []).1 =
              Except.ok res := hres
          rw [Except.ok.injEq] at hres
          refine hres ▸ value_pair_levels_mem _ _ _ hnil ?_
          intro p q used' hpm hqm hc
          rw [comboPositions_create]
          obtain ⟨g, hg, hp⟩ := hpm
          have hppos : p.pos ∈ ([a, b] : List String) := sorted_groups_pos hg hp
          simpa using pair_filter_perm hppos (value_pair_cond_pos hc)
  intro o ho
  exact hmain o (List.mem_of_mem_take (hopts ▸ ho))

/-- An example candidate row. -/
def mkCand (nm ps : String) (price totalBase premium avgBpre avgBase : Int) :
    Candidate :=
  { name := nm, team := "CAN", pos := ps, price := price, totalBase := totalBase,
    premium := premium, cgw := 2, level := 1, avgBpre := avgBpre, avgBase := avgBase }

/-- Example priority groups: one level with an HLF and a MID candidate. -/
def exGroups : List (Nat × List Candidate) :=
  [(1, [mkCand "A" "HLF" 100 40 10 12 45, mkCand "B" "MID" 80 35 8 9 38])]

/-- The options of an example like-for-like value-strategy search. -/
def exOpts : List TradeCombo :=
  match generate_comprehensive_trade_options exGroups 200 false false 10
      "likeForLike" ["HLF", "MID"] 2 with
  | Except.ok os => os
  | Except.error _ => []

/-- C2 (witness): the example search returns options within the budget 200,
with the exact salary remainder. -/
theorem trade_options_within_budget_witness :
    (∀ g ∈ exGroups, ∀ p ∈ g.2, (0 : Int) ≤ p.price) ∧
    (∀ o ∈ exOpts, o.total_price ≤ 200 ∧ o.salary_remaining = 200 - o.total_price) :=
  ⟨by decide, trade_options_within_budget exGroups 200 false false 10 2
    "likeForLike" ["HLF", "MID"] exOpts (by decide) rfl⟩

/-- C3 (witness): the example search returns pairwise name-disjoint options. -/
theorem trade_options_no_overlap_witness :
    exOpts.Pairwise NamesDisjoint :=
  trade_options_no_overlap exGroups 200 false false 10 2
    "likeForLike" ["HLF", "MID"] exOpts rfl

/-- C5 (witness): the first combination of the example like-for-like search
has positions exactly the traded-out multiset. -/
theorem like_for_like_positions_witness :
    ((exOpts.headD (create_combination [] 0 0)).players.map
      (fun pl => pl.position)).Perm ["HLF", "MID"] := by
  have h := like_for_like_positions exGroups 200 false false 10 "HLF" "MID" exOpts rfl
  refine h _ ?_
  exact List.mem_cons_self _ _

/-- Example priority groups for the hybrid crash: a single unused HLF
candidate. -/
def exGroupsHLF : List (Nat × List Candidate) :=
  [(1, [mkCand "C" "HLF" 100 40 10 12 45])]

/-- C6: on a valid input (hybrid strategy, two-slot like-for-like trade,
both traded-out players sharing position HLF, one available HLF candidate),
the search raises an uncaught `IndexError` (modelled as `Except.error`)
instead of returning a result. -/
theorem hybrid_like_for_like_index_error :
    (∀ g ∈ exGroupsHLF, ∀ p ∈ g.2, p.pos = "HLF") ∧
    generate_comprehensive_trade_options exGroupsHLF 200 false true 10
      "likeForLike" ["HLF", "HLF"] 2 = Except.error "IndexError" := by
  exact ⟨by decide, rfl⟩

instance : IsTotal Candidate prodKeyRel :=
  ⟨by intro a b; unfold prodKeyRel; omega⟩

instance : IsTrans Candidate prodKeyRel :=
  ⟨by intro a b c hab hbc; unfold prodKeyRel at *; omega⟩

/-- C7 (amended): under the production strategy the candidates are the
level-flattened pool ordered by descending rolling average production with
ties broken by descending rolling average premium (`avg_bpre`) — not by
current-round production. -/
theorem flat_players_sorted_spec (pfg : List (Nat × List Candidate)) :
    (flat_players_sorted pfg).Perm ((sorted_groups pfg).flatMap (fun g => g.2)) ∧
    (flat_players_sorted pfg).Sorted prodKeyRel :=
  ⟨List.perm_insertionSort _ _, List.sorted_insertionSort _ _⟩

/-- Ordering stated by the specification sentence under verification:
descending rolling average production, ties broken by descending
current-round production total. -/
def claimed_production_rel (x y : Candidate) : Prop :=
  y.avgBase < x.avgBase ∨ (y.avgBase = x.avgBase ∧ y.totalBase ≤ x.totalBase)

instance : DecidableRel claimed_production_rel :=
  fun a b => by unfold claimed_production_rel; infer_instance

/-- Example candidates with equal rolling average production: "A" has the
higher current-round production, "B" the higher rolling average premium. -/
def prodA : Candidate := mkCand "A" "MID" 100 100 5 1 50

/-- The tied partner of `prodA`. -/
def prodB : Candidate := mkCand "B" "MID" 90 40 5 2 50

/-- One priority group holding the two tied candidates. -/
def prodGroups : List (Nat × List Candidate) := [(1, [prodA, prodB])]

/-- C7 (counterexample): two candidates with equal rolling average
production; the code attempts first the one with the higher rolling average
premium, not the one with the higher current-round production, so the
production-strategy order differs from the claimed one. -/
theorem production_order_ties_not_by_current_base :
    prodA.avgBase = prodB.avgBase ∧
    prodB.totalBase < prodA.totalBase ∧
    flat_players_sorted prodGroups = [prodB, prodA] ∧
    flat_players_sorted prodGroups ≠
      List.insertionSort claimed_production_rel
        ((sorted_groups prodGroups).flatMap (fun g => g.2)) := by
  exact ⟨rfl, by decide, by decide, by decide⟩

/-- C7 (witness for the amended theorem): the amended ordering instantiated
on the example pool. -/
theorem flat_players_sorted_spec_witness :
    (flat_players_sorted prodGroups).Perm
      ((sorted_groups prodGroups).flatMap (fun g => g.2)) ∧
    (flat_players_sorted prodGroups).Sorted prodKeyRel :=
  flat_players_sorted_spec prodGroups

/-- C10: (i) with a simulated timestamp, a player is in the locked-out set
iff it appears in the data and its latest-round team is in a fixture with
kickoff at or before the simulated time; (ii) a pool member is removed by
the lockout filter iff it is in that set; (iii) lockout requested without a
simulated timestamp degrades to no lockout applied (the pool is unchanged),
not a crash. -/
theorem lockout_semantics :
    (∀ (data : List PlayerRow) (t : PyDateTime) (name : String),
      name ∈ get_locked_out_players (some t) data ↔
        name ∈ data.map (fun r => r.player) ∧
        ∃ r, latest_record data name = some r ∧ r.team ∈ locked_out_teams t) ∧
    (∀ (data : List PlayerRow) (tradedOut teamList : List String) (t : PyDateTime)
      (r : PlayerRow), r ∈ pool_team_filtered data tradedOut teamList →
      (r ∉ pool_lockout_filtered data tradedOut teamList true (some t) ↔
        r.player ∈ get_locked_out_players (some t) data)) ∧
    (∀ (data : List PlayerRow) (tradedOut teamList : List String),
      pool_lockout_filtered data tradedOut teamList true none =
        pool_team_filtered data tradedOut teamList) := by
  refine ⟨?_, ?_, ?_⟩
  · intro data t name
    unfold get_locked_out_players
    rw [List.mem_filter]
    constructor
    · rintro ⟨hmem, hpred⟩
      refine ⟨List.mem_dedup.mp hmem, ?_⟩
      cases hl : latest_record data name with
      | none => rw [hl] at hpred; simp at hpred
      | some r =>
        rw [hl] at hpred
        exact ⟨r, rfl, by simpa using hpred⟩
    · rintro ⟨hmem, r, hl, hteam⟩
      refine ⟨List.mem_dedup.mpr hmem, ?_⟩
      rw [hl]
      simpa using hteam
  · intro data tradedOut teamList t r hr
    have hdef : pool_lockout_filtered data tradedOut teamList true (some t) =
        (pool_team_filtered data tradedOut teamList).filter
          (fun row => decide (row.player ∉ get_locked_out_players (some t) data)) := rfl
    rw [hdef, List.mem_filter]
    simp only [decide_eq_true_eq]
    constructor
    · intro hnot
      by_contra hcon
      exact hnot ⟨hr, hcon⟩
    · rintro hin ⟨-, hnot⟩
      exact hnot hin
  · intro data tradedOut teamList
    have hdef : pool_lockout_filtered data tradedOut teamList true none =
        (pool_team_filtered data tradedOut teamList).filter
          (fun row => decide (row.player ∉ get_locked_out_players none data)) := rfl
    rw [hdef, List.filter_eq_self]
    intro a ha
    simp [get_locked_out_players]

/-- A row of the example locked-out player: team CAN, whose round-1 fixture
kicks off 2025-03-02 11:00. -/
def lockRow : PlayerRow :=
  { player := "L", team := "CAN", round := 1, pos := "HLF", age := 25,
    price := 1, totalBase := 1, premium := 1 }

/-- Data containing only the example locked-out player. -/
def lockData : List PlayerRow := [lockRow]

/-- C10 (witness): at a simulated time after CAN's kickoff the example
player is removed from the pool by the lockout filter, and with no simulated
timestamp the pool is unchanged. -/
theorem lockout_semantics_witness :
    lockRow ∉ pool_lockout_filtered lockData [] [] true (some ⟨2025, 3, 2, 12, 0⟩) ∧
    pool_lockout_filtered lockData [] [] true none = pool_team_filtered lockData [] [] :=
  ⟨(lockout_semantics.2.1 lockData [] [] ⟨2025, 3, 2, 12, 0⟩ lockRow (by decide)).mpr
    (by decide),
   lockout_semantics.2.2 lockData [] []⟩
